import Mathlib

/-! # The user service of `server/service/service.go`

A shallow embedding of the four operations of `UserImpl` (`Create`, `List`,
`SearchAge`, `SearchName`) over an explicit store state, followed by the
properties of these operations.

The service keeps its users in one table `"user"` of an in-memory indexed
database with two indexes, declared in `NewDB`:

* `"id"`, unique, `StringFieldIndex{Field: "Email"}`;
* `"age"`, not unique, `IntFieldIndex{Field: "Age"}`.

The database library is imported, its code and its release are not among the
sources. Its releases encode an integer index value in one of two ways, which
order negative and large values differently; the database of the model carries
the encoding it runs on, and the properties are stated for both.

A Go call either returns `(resp, err)` or panics; `Outcome` records which, and
carries the state of the service after the call.
-/

namespace Quote

/-! ## Messages of the `schema/user` package -/

/-- Modelled from the spec: the generated message type `pb.Name` is not among
the sources. The source reads the field `First` (`u.Name.First`); the field
`Last` is the record's last name of §3 of the specification. -/
structure Name where
  First : String
  Last : String
deriving DecidableEq

/-- Modelled from the spec: the generated message type `pb.User` is not among
the sources. The fields are the ones the source names: `Id` (`user.Id`), `Age`
(`u.Age`, `IntFieldIndex{Field: "Age"}`), `Name` (`u.Name.First`) and `Email`
(`StringFieldIndex{Field: "Email"}`). `Age` is a signed 32-bit integer in Go;
the source only compares it and hands it to the index, so it is an `Int` here,
and a property that depends on its range says so. `Name` is a message-typed
field, a pointer that may be nil, like `AgeRange` in `SearchAgeReq`. -/
structure User where
  Id : String
  Age : Int
  Name : Option Name
  Email : String
deriving DecidableEq

/-- Modelled from the spec: the status codes of `pb.Status` (§6: `SUCCESS` and
`INVALID_QUERY`); the generated enumeration is not among the sources. -/
inductive Status_Code where
  | SUCCESS
  | INVALID_QUERY
deriving DecidableEq

/-- Modelled from the spec: the message `pb.Status{Code, Msg}`, not among the
sources; `Msg` is the empty string when the source does not set it. -/
structure Status where
  Code : Status_Code
  Msg : String
deriving DecidableEq

/-- Modelled from the spec: the request of `Create`, not among the sources;
`User` is what `req.GetUser()` returns, nil when the request carries no user. -/
structure CreateReq where
  User : Option User
deriving DecidableEq

/-- Modelled from the spec: the response of `Create`, not among the sources. -/
structure CreateResp where
  Status : Status
deriving DecidableEq

/-- Modelled from the spec: the (empty) request of `List`, not among the
sources. -/
structure ListReq where
deriving DecidableEq

/-- Modelled from the spec: the response of `List`, `SearchAge` and
`SearchName`, not among the sources. -/
structure SearchResp where
  Users : List User
  Status : Status
deriving DecidableEq

/-- Modelled from the spec: the message `AgeRange{From, ToIncluded}` named by
the error text of `SearchAge`, not among the sources. -/
structure AgeRange where
  From : Int
  ToIncluded : Int
deriving DecidableEq

/-- Modelled from the spec: the request of `SearchAge`, not among the sources;
`AgeRange` is a pointer the source compares with nil. -/
structure SearchAgeReq where
  AgeRange : Option AgeRange
deriving DecidableEq

/-- Modelled from the spec: the request of `SearchName`, not among the
sources. -/
structure SearchNameReq where
  Query : String
deriving DecidableEq

/-! ## The `strings` package -/

/-- Go's `strings.Contains(s, substr)`: `substr` occurs in `s` as a contiguous
run, compared exactly (case-sensitive, unanchored). Go compares bytes; for the
valid UTF-8 text a protobuf string field holds, a run of bytes is a run of
characters. -/
def strings.Contains (s substr : String) : Bool :=
  decide (substr.data <:+: s.data)

/-! ## The indexed store (`go-memdb`) -/

/-- Modelled from the spec: the index engine of §4.1 (the imported `go-memdb`
library, whose code is not among the sources). One index is the list of its
entries in ascending key order. The library orders its keys as byte strings;
for UTF-8 text that is the order of the sequences of characters used here. -/
abbrev Index (K : Type) := List (K × User)

/-- Modelled from the spec: insert or replace the entry of key `k` (§4.1 `put`
on one index), keeping the entries in ascending key order. -/
def Index.Insert {K : Type} [LinearOrder K] (k : K) (obj : User) : Index K → Index K
  | [] => [(k, obj)]
  | e :: es =>
    if k < e.1 then (k, obj) :: e :: es
    else if e.1 < k then e :: Index.Insert k obj es
    else (k, obj) :: es

/-- Modelled from the spec: remove the entry of key `k` from one index (§4.1,
removal of a stale entry). -/
def Index.Delete {K : Type} [DecidableEq K] (k : K) (idx : Index K) : Index K :=
  idx.filter (fun e => decide (e.1 ≠ k))

/-- Modelled from the spec: unique lookup of key `k` (§4.1 `get`). -/
def Index.Get {K : Type} [DecidableEq K] (k : K) : Index K → Option User
  | [] => none
  | e :: es => if e.1 = k then some e.2 else Index.Get k es

/-- Modelled from the spec: the entries from the first one whose key is at
least `k`, in ascending order (§4.1 `iterateFrom`, lower-bound seek). -/
def Index.LowerBound {K : Type} [LinearOrder K] (k : K) (idx : Index K) : Index K :=
  idx.dropWhile (fun e => decide (e.1 < k))

/-- The value of the index `"id"` for an object, as the schema of `NewDB`
declares it: `StringFieldIndex{Field: "Email"}`, the `Email` field. The indexer
is the library's (not among the sources): it reports whether the object has a
value, and an empty string is no value. The library ends the key with a zero
byte, which does not change the order of the keys and is left out. -/
def StringFieldIndex.FromObject (obj : User) : Bool × List Char :=
  if obj.Email = "" then (false, []) else (true, obj.Email.data)

/-- The two ways the releases of the library encode an integer index value as
a key of bytes: `varint`, Go's `binary.PutVarint` into a zeroed buffer (the
earlier releases), and `bigEndian`, the sign bit flipped and the bytes written
most significant first (the later releases). Which release the service is
built with is not among the sources. -/
inductive IntEncoding where
  | varint
  | bigEndian
deriving DecidableEq

/-- The zigzag step of `binary.PutVarint`: `2 * v` for a non-negative `v` and
`-2 * v - 1` for a negative one. -/
def zigzag (v : Int) : Nat :=
  if 0 ≤ v then (2 * v).toNat else (-2 * v - 1).toNat

/-- Go's `binary.PutUvarint` into a zeroed buffer of `n` bytes: seven bits a
byte, least significant first, the high bit set on every byte but the last. -/
def PutUvarint : Nat → Nat → List Nat
  | 0, _ => []
  | n + 1, x =>
    if x < 128 then x :: List.replicate n 0
    else (x % 128 + 128) :: PutUvarint n (x / 128)

/-- The key of a 32-bit integer in the `varint` encoding: a buffer of
`binary.MaxVarintLen32 = 5` bytes. -/
def encodeVarint (v : Int) : List Nat :=
  PutUvarint 5 (zigzag v)

/-- The key of a 32-bit integer in the `bigEndian` encoding: the four bytes of
`v + 2^31` (the sign bit flipped), most significant first. -/
def encodeBigEndian (v : Int) : List Nat :=
  let n := ((v + 2147483648) % 4294967296).toNat
  [n / 16777216, n / 65536 % 256, n / 256 % 256, n % 256]

/-- The key of an integer index value in the encoding `enc`. -/
def encodeInt : IntEncoding → Int → List Nat
  | .varint, v => encodeVarint v
  | .bigEndian, v => encodeBigEndian v

/-- The value of the index `"age"` for an object, as the schema of `NewDB`
declares it: `IntFieldIndex{Field: "Age"}`, the `Age` field. The indexer is the
library's (not among the sources): every integer, zero included, is a value,
and its key is the integer in the encoding of the release. -/
def IntFieldIndex.FromObject (enc : IntEncoding) (obj : User) : Bool × List Nat :=
  (true, encodeInt enc obj.Age)

/-- The seek key of the index `"age"` for the argument of `LowerBound`: the
integer in the encoding of the release (the library's
`IntFieldIndex.FromArgs`). -/
def IntFieldIndex.FromArgs (enc : IntEncoding) (v : Int) : List Nat :=
  encodeInt enc v

/-- The table `"user"` with the two indexes of the schema of `NewDB`, and the
integer encoding of the release the database runs on. The index `"age"` is not
unique: the library files an entry under the key of its age followed by its
primary key; the key of an age has a fixed width, so the order of the entries
is the order of the age keys and, for one age, the order of the primary keys
(§3 speaks of insertion order among equal ages; no property below depends on
the order among equal ages). -/
structure MemDB where
  ints : IntEncoding
  id : Index (List Char)
  age : Index (List Nat ×ₗ List Char)

/-- Modelled from the spec: a transaction handle (§4.2): a private view of the
index set taken when the handle is opened, and whether it may write. -/
structure Txn where
  write : Bool
  ints : IntEncoding
  id : Index (List Char)
  age : Index (List Nat ×ₗ List Char)

/-- The sequence of values an iterator yields through `Next`, in order; `Next`
returns nil once it is exhausted. -/
abbrev ResultIterator := List User

/-- The schema of `NewDB` is well formed, so `memdb.NewMemDB` returns an empty
database and `NewDB` does not panic. The argument is the integer encoding of
the release of the library. -/
def NewDB (enc : IntEncoding) : MemDB :=
  { ints := enc, id := [], age := [] }

/-- Modelled from the spec: `db.Txn(write)` opens a handle on the committed
view (§4.2 `beginRead` / `beginWrite`). -/
def MemDB.Txn (db : MemDB) (write : Bool) : Txn :=
  { write := write, ints := db.ints, id := db.id, age := db.age }

/-- Modelled from the spec: `txn.Commit()` makes the view of a write handle the
committed view; on a read handle it does nothing (§4.2). -/
def Txn.Commit (txn : Txn) (db : MemDB) : MemDB :=
  if txn.write then { ints := txn.ints, id := txn.id, age := txn.age } else db

/-- Modelled from the spec: `txn.Abort()` releases the handle and leaves the
committed view as it is (§4.2 `release`). -/
def Txn.Abort (_txn : Txn) (db : MemDB) : MemDB :=
  db

/-- Modelled from the spec: `txn.Insert("user", obj)` of the library (§4.1
`put`): an object already filed under the same primary key is replaced, its
stale entry removed from each index before the new one is added. The insert
returns an error, as the library does, on a read-only handle and for an object
without a value for the primary index; these are the errors that `Create`
turns into a panic. -/
def Txn.Insert (txn : Txn) (obj : User) : Except String Txn :=
  if !txn.write then .error "cannot insert in read-only transaction"
  else
    match StringFieldIndex.FromObject obj with
    | (false, _) => .error "object missing primary index"
    | (true, idVal) =>
      let existing := Index.Get idVal txn.id
      let val : List Nat ×ₗ List Char :=
        toLex ((IntFieldIndex.FromObject txn.ints obj).2, idVal)
      let idIdx :=
        match existing with
        | some old =>
          match StringFieldIndex.FromObject old with
          | (true, valExist) =>
            if valExist = idVal then txn.id else Index.Delete valExist txn.id
          | (false, _) => txn.id
        | none => txn.id
      let ageIdx :=
        match existing with
        | some old =>
          let valExist : List Nat ×ₗ List Char :=
            toLex ((IntFieldIndex.FromObject txn.ints old).2, idVal)
          if valExist = val then txn.age else Index.Delete valExist txn.age
        | none => txn.age
      .ok { txn with id := Index.Insert idVal obj idIdx, age := Index.Insert val obj ageIdx }

/-- Modelled from the spec: `txn.Get("user", "id")` without arguments walks the
primary index in key order (§4.1 `iterateAll`). -/
def Txn.Get (txn : Txn) : ResultIterator :=
  txn.id.map Prod.snd

/-- Modelled from the spec: `txn.LowerBound("user", "age", v)` walks the index
`"age"` from the first entry whose key is at least the seek key (§4.1
`iterateFrom`); the seek key is the key of `v` alone, without a primary key
after it. -/
def Txn.LowerBound (txn : Txn) (v : Int) : ResultIterator :=
  (Index.LowerBound (toLex (IntFieldIndex.FromArgs txn.ints v, [])) txn.age).map Prod.snd

/-- Modelled from the spec: `memdb.NewFilterIterator(iter, filter)` yields the
values of `iter` in order, leaving out those for which `filter` returns true.
The filter runs as the values are drawn; the caller below draws all of them,
so a panic of the filter on any value is a panic of the call. -/
def NewFilterIterator (iter : ResultIterator) (filter : User → Except String Bool) :
    Except String ResultIterator :=
  match iter with
  | [] => .ok []
  | raw :: rest =>
    match filter raw with
    | .error e => .error e
    | .ok out =>
      match NewFilterIterator rest filter with
      | .error e => .error e
      | .ok it => .ok (if out then it else raw :: it)

/-! ## The identifier supplier (`xid`) -/

/-- Modelled from the spec: the external identifier supplier (§1, §4.3), the
imported `xid` package. `ids n` is the identifier the call number `n` returns
and `calls` counts the calls made so far. -/
structure Xid where
  ids : Nat → String
  calls : Nat

/-- The call `xid.New().String()`: the next identifier, and the supplier after
the call. -/
def Xid.New (x : Xid) : String × Xid :=
  (x.ids x.calls, { x with calls := x.calls + 1 })

/-! ## The service -/

/-- The service of `service.go`: the database it holds. -/
structure UserImpl where
  DB : MemDB

/-- The outcome of a call of the service: it returns a response and an error
value (`none` is Go's nil) and leaves the service in a state, or it panics. -/
inductive Outcome (α : Type) where
  | returned (resp : α) (err : Option String) (svc : UserImpl)
  | panicked (msg : String)

/-- The function `NewUserImpl`; the argument is the integer encoding of the
release of the library. -/
def NewUserImpl (enc : IntEncoding) : UserImpl :=
  { DB := NewDB enc }

/-- The loop `for raw := it.Next(); raw != nil; raw = it.Next()` of `List` and
`SearchName`, which appends every value to `users`. -/
def appendAll : ResultIterator → List User → List User
  | [], users => users
  | raw :: it, users => appendAll it (users ++ [raw])

/-- The loop of `SearchAge`: it appends the values drawn from the iterator and
breaks at the first one whose age is above 35. -/
def appendUpTo35 : ResultIterator → List User → List User
  | [], users => users
  | u :: it, users => if u.Age > 35 then users else appendUpTo35 it (users ++ [u])

/-- The statement `if user.Id == "" { user.Id = xid.New().String() }` of
`Create`: the user as it is inserted, and the supplier afterwards. The supplier
is called only for a user without an id. -/
def assignId (xid : Xid) (user : User) : User × Xid :=
  if user.Id = "" then ({ user with Id := xid.New.1 }, xid.New.2) else (user, xid)

/-- The method `Create`: a user without an id gets one from the supplier; the
user is inserted in a write transaction, which is committed; a failed insert
panics. A request without a user panics at `user.Id`. The result is the outcome
of the call and the supplier after it. -/
def UserImpl.Create (svc : UserImpl) (xid : Xid) (req : CreateReq) :
    Outcome CreateResp × Xid :=
  match req.User with
  | none => (.panicked "runtime error: invalid memory address or nil pointer dereference", xid)
  | some user =>
    let txn := svc.DB.Txn true
    match txn.Insert (assignId xid user).1 with
    | .error err => (.panicked err, (assignId xid user).2)
    | .ok txn =>
      (.returned { Status := { Code := .SUCCESS, Msg := "" } } none
        { svc with DB := txn.Commit svc.DB }, (assignId xid user).2)

/-- The method `List`: every value of the primary index, read in a read-only
transaction that is aborted on return. -/
def UserImpl.List (svc : UserImpl) (_req : ListReq) : Outcome SearchResp :=
  let txn := svc.DB.Txn false
  let it := txn.Get
  let users := appendAll it []
  .returned { Users := users, Status := { Code := .SUCCESS, Msg := "" } } none
    { svc with DB := txn.Abort svc.DB }

/-- The method `SearchAge`. -/
def UserImpl.SearchAge (svc : UserImpl) (req : SearchAgeReq) : Outcome SearchResp :=
  match req.AgeRange with
  | none =>
    .returned
      { Users := [],
        Status := { Code := .INVALID_QUERY,
                    Msg := "field AgeRange\x7bFrom: int, ToIncluded: int\x7d missing" } }
      none svc
  | some r =>
    if r.From > r.ToIncluded then
      .returned
        { Users := [],
          Status := { Code := .INVALID_QUERY,
                      Msg := "the From field must be lower or equal to ToIncluded" } }
        none svc
    else
      let txn := svc.DB.Txn false
      let it := txn.LowerBound r.From
      let users := appendUpTo35 it []
      .returned { Users := users, Status := { Code := .SUCCESS, Msg := "" } } none
        { svc with DB := txn.Abort svc.DB }

/-- The closure `filterByFirstOrLastName(query)` of `SearchName`: true (the
value is left out) unless the first name contains the query; the source tests
`u.Name.First` in both operands of `&&`. A user without a name panics at
`u.Name.First`. -/
def filterByFirstOrLastName (query : String) (raw : User) : Except String Bool :=
  match raw.Name with
  | none => .error "runtime error: invalid memory address or nil pointer dereference"
  | some name =>
    .ok (!(strings.Contains name.First query && strings.Contains name.First query))

/-- The method `SearchName`. -/
def UserImpl.SearchName (svc : UserImpl) (req : SearchNameReq) : Outcome SearchResp :=
  if req.Query = "" then
    .returned
      { Users := [],
        Status := { Code := .INVALID_QUERY, Msg := "query cannot be empty" } }
      none svc
  else
    let txn := svc.DB.Txn false
    let result := txn.Get
    match NewFilterIterator result (filterByFirstOrLastName req.Query) with
    | .error e => .panicked e
    | .ok it =>
      let users := appendAll it []
      .returned { Users := users, Status := { Code := .SUCCESS, Msg := "" } } none
        { svc with DB := txn.Abort svc.DB }

/-! ## Store contents and reachable states -/

/-- The users the store holds: the values of the primary index, in its order. -/
def stored (svc : UserImpl) : List User :=
  svc.DB.id.map Prod.snd

/-- The entries of an index are in strictly ascending key order. -/
def Index.Sorted {K : Type} [LT K] (idx : Index K) : Prop :=
  idx.Pairwise (fun a b => a.1 < b.1)

/-- The invariant of the table: both indexes are in strictly ascending key
order, every entry is filed under the key of its user (a non-empty `Email` in
`"id"`, the key of the age followed by the `Email` in `"age"`), and the two
indexes hold the same users. -/
structure MemDB.WF (db : MemDB) : Prop where
  id_sorted : Index.Sorted db.id
  id_key : ∀ e ∈ db.id, e.2.Email ≠ "" ∧ e.1 = e.2.Email.data
  age_sorted : Index.Sorted db.age
  age_key : ∀ e ∈ db.age, e.1 = toLex (encodeInt db.ints e.2.Age, e.2.Email.data)
  same : ∀ u, u ∈ db.id.map Prod.snd ↔ u ∈ db.age.map Prod.snd

/-- The states of the service: the one `NewUserImpl` builds, on either release
of the library, and every state a returning call of one of the four methods
leaves behind. -/
inductive Reachable : UserImpl → Prop where
  | init (enc : IntEncoding) : Reachable (NewUserImpl enc)
  | create {svc svc1 : UserImpl} {xid xid1 : Xid} {req : CreateReq} {resp : CreateResp}
      {err : Option String} :
      Reachable svc → svc.Create xid req = (.returned resp err svc1, xid1) → Reachable svc1
  | list {svc svc1 : UserImpl} {req : ListReq} {resp : SearchResp} {err : Option String} :
      Reachable svc → svc.List req = .returned resp err svc1 → Reachable svc1
  | searchAge {svc svc1 : UserImpl} {req : SearchAgeReq} {resp : SearchResp}
      {err : Option String} :
      Reachable svc → svc.SearchAge req = .returned resp err svc1 → Reachable svc1
  | searchName {svc svc1 : UserImpl} {req : SearchNameReq} {resp : SearchResp}
      {err : Option String} :
      Reachable svc → svc.SearchName req = .returned resp err svc1 → Reachable svc1

/-! ## Sample data -/

/-- A supplier that hands out the identifier `"g1"`. -/
def sampleXid : Xid :=
  { ids := fun _ => "g1", calls := 0 }

/-- The supplier `sampleXid` after one call. -/
def sampleXid1 : Xid :=
  { ids := fun _ => "g1", calls := 1 }

/-- Anna Banner, aged 30: `"ann"` occurs in her last name and not in her first
name. -/
def anna : User :=
  { Id := "u1", Age := 30, Name := some { First := "Anna", Last := "Banner" }, Email := "a@x" }

/-- Bob Smith, aged 40. -/
def bob : User :=
  { Id := "u2", Age := 40, Name := some { First := "Bob", Last := "Smith" }, Email := "b@x" }

/-- A user with the id of `anna` and the email of `bob`. -/
def bobAsU1 : User :=
  { Id := "u1", Age := 41, Name := some { First := "Bob", Last := "Smith" }, Email := "b@x" }

/-- A user with an id and without an email. -/
def noEmail : User :=
  { Id := "u3", Age := 25, Name := some { First := "Carl", Last := "Jones" }, Email := "" }

/-- A user without an id and without an email. -/
def noIdNoEmail : User :=
  { Id := "", Age := 25, Name := some { First := "Dora", Last := "Jones" }, Email := "" }

/-- A user without an id, with an email. -/
def noId : User :=
  { Id := "", Age := 25, Name := some { First := "Dora", Last := "Jones" }, Email := "d@x" }

/-- The store after `Create(anna)` on the empty store, on the release `enc`. -/
def svcA (enc : IntEncoding) : UserImpl :=
  { DB := { ints := enc, id := [("a@x".data, anna)],
            age := [(toLex (encodeInt enc 30, "a@x".data), anna)] } }

/-- The store after `Create(anna)` and `Create(bob)`, on the release `enc`. -/
def svcAB (enc : IntEncoding) : UserImpl :=
  { DB := { ints := enc, id := [("a@x".data, anna), ("b@x".data, bob)],
            age := [(toLex (encodeInt enc 30, "a@x".data), anna),
                    (toLex (encodeInt enc 40, "b@x".data), bob)] } }

/-- The store after `Create(anna)` and `Create(bobAsU1)`, on the release
`enc`. -/
def svcAU (enc : IntEncoding) : UserImpl :=
  { DB := { ints := enc, id := [("a@x".data, anna), ("b@x".data, bobAsU1)],
            age := [(toLex (encodeInt enc 30, "a@x".data), anna),
                    (toLex (encodeInt enc 41, "b@x".data), bobAsU1)] } }

/-- The response that carries `users` with the status `SUCCESS`. -/
def okResp (users : List User) : SearchResp :=
  { Users := users, Status := { Code := .SUCCESS, Msg := "" } }

/-- The response of a successful `Create`. -/
def createOk : CreateResp :=
  { Status := { Code := .SUCCESS, Msg := "" } }

/-- The first name of a user contains `query`; false for a user without a
name. -/
def firstNameContains (query : String) (u : User) : Bool :=
  match u.Name with
  | some name => strings.Contains name.First query
  | none => false

/-- A user without a name. -/
def nameless : User :=
  { Id := "u4", Age := 50, Name := none, Email := "n@x" }

/-- The store after `Create(nameless)` on the empty store, on the release
`enc`. -/
def svcN (enc : IntEncoding) : UserImpl :=
  { DB := { ints := enc, id := [("n@x".data, nameless)],
            age := [(toLex (encodeInt enc 50, "n@x".data), nameless)] } }

/-- Carl Jones, aged 20, whose id `"u0"` is below Anna's and whose email is
above hers. -/
def carl : User :=
  { Id := "u0", Age := 20, Name := some { First := "Carl", Last := "Jones" }, Email := "c@x" }

/-- The store after `Create(anna)` and `Create(carl)`, on the release `enc`. -/
def svcAC (enc : IntEncoding) : UserImpl :=
  { DB := { ints := enc, id := [("a@x".data, anna), ("c@x".data, carl)],
            age := [(toLex (encodeInt enc 20, "c@x".data), carl),
                    (toLex (encodeInt enc 30, "a@x".data), anna)] } }

/-- A user of age `-1`; `Create` does not look at the age. -/
def minusOne : User :=
  { Id := "u5", Age := -1, Name := some { First := "Mia", Last := "Jones" }, Email := "m@x" }

/-- A user of age 2. -/
def tot : User :=
  { Id := "u6", Age := 2, Name := some { First := "Tom", Last := "Jones" }, Email := "t@x" }

/-- The store after `Create(minusOne)` on the empty store, on the release
`enc`. -/
def svcM (enc : IntEncoding) : UserImpl :=
  { DB := { ints := enc, id := [("m@x".data, minusOne)],
            age := [(toLex (encodeInt enc (-1), "m@x".data), minusOne)] } }

/-- The store after `Create(minusOne)` and `Create(tot)`, on the release
`enc`. -/
def svcMT (enc : IntEncoding) : UserImpl :=
  { DB := { ints := enc, id := [("m@x".data, minusOne), ("t@x".data, tot)],
            age := [(toLex (encodeInt enc (-1), "m@x".data), minusOne),
                    (toLex (encodeInt enc 2, "t@x".data), tot)] } }

/-- An age, or a lower bound of a range, that is a non-negative 32-bit
integer. -/
def NonNegInt32 (v : Int) : Prop :=
  0 ≤ v ∧ v < 2147483648

/-! # Properties -/

/-! ## Lemmas on one index -/

/-- The entries of an index after an insert: the new entry, and the old entries
of another key. -/
theorem Index.mem_Insert {K : Type} [LinearOrder K] (k : K) (v : User) (idx : Index K)
    (h : Index.Sorted idx) (e : K × User) :
    e ∈ Index.Insert k v idx ↔ e = (k, v) ∨ (e ∈ idx ∧ e.1 ≠ k) := by
  induction idx with
  | nil => simp [Index.Insert]
  | cons e0 es ih =>
    have hs : (∀ a ∈ es, e0.1 < a.1) ∧ Index.Sorted es := List.pairwise_cons.1 h
    unfold Index.Insert
    split_ifs with h1 h2
    · constructor
      · intro he
        rcases List.mem_cons.1 he with he | he
        · exact Or.inl he
        · right
          refine ⟨he, ?_⟩
          rcases List.mem_cons.1 he with he | he
          · subst he; exact ne_of_gt h1
          · exact ne_of_gt (lt_trans h1 (hs.1 e he))
      · rintro (he | ⟨he, _⟩)
        · subst he; exact List.mem_cons_self _ _
        · exact List.mem_cons_of_mem _ he
    · rw [List.mem_cons, ih hs.2, List.mem_cons]
      constructor
      · rintro (he | he | ⟨he, hk⟩)
        · subst he; exact Or.inr ⟨Or.inl rfl, ne_of_lt h2⟩
        · exact Or.inl he
        · exact Or.inr ⟨Or.inr he, hk⟩
      · rintro (he | ⟨he | he, hk⟩)
        · exact Or.inr (Or.inl he)
        · exact Or.inl he
        · exact Or.inr (Or.inr ⟨he, hk⟩)
    · have hk : e0.1 = k := le_antisymm (not_lt.1 h1) (not_lt.1 h2)
      rw [List.mem_cons, List.mem_cons]
      constructor
      · rintro (he | he)
        · exact Or.inl he
        · exact Or.inr ⟨Or.inr he, ne_of_gt (hk ▸ hs.1 e he)⟩
      · rintro (he | ⟨he | he, hne⟩)
        · exact Or.inl he
        · subst he; exact absurd hk hne
        · exact Or.inr he

/-- An insert keeps an index in strictly ascending key order. -/
theorem Index.sorted_Insert {K : Type} [LinearOrder K] (k : K) (v : User) (idx : Index K)
    (h : Index.Sorted idx) : Index.Sorted (Index.Insert k v idx) := by
  induction idx with
  | nil => simp [Index.Insert, Index.Sorted]
  | cons e0 es ih =>
    have hs : (∀ a ∈ es, e0.1 < a.1) ∧ Index.Sorted es := List.pairwise_cons.1 h
    unfold Index.Insert
    split_ifs with h1 h2
    · refine List.pairwise_cons.2 ⟨?_, h⟩
      intro a ha
      rcases List.mem_cons.1 ha with ha | ha
      · subst ha; exact h1
      · exact lt_trans h1 (hs.1 a ha)
    · refine List.pairwise_cons.2 ⟨?_, ih hs.2⟩
      intro a ha
      rcases (Index.mem_Insert k v es hs.2 a).1 ha with ha | ⟨ha, _⟩
      · subst ha; exact h2
      · exact hs.1 a ha
    · have hk : e0.1 = k := le_antisymm (not_lt.1 h1) (not_lt.1 h2)
      refine List.pairwise_cons.2 ⟨?_, hs.2⟩
      intro a ha
      exact hk ▸ hs.1 a ha

/-- The entries of an index after a removal: the entries of another key. -/
theorem Index.mem_Delete {K : Type} [DecidableEq K] (k : K) (idx : Index K) (e : K × User) :
    e ∈ Index.Delete k idx ↔ e ∈ idx ∧ e.1 ≠ k := by
  simp [Index.Delete]

/-- A removal keeps an index in strictly ascending key order. -/
theorem Index.sorted_Delete {K : Type} [DecidableEq K] [LT K] (k : K) (idx : Index K)
    (h : Index.Sorted idx) : Index.Sorted (Index.Delete k idx) :=
  List.Pairwise.filter _ h

/-- A lookup finds nothing exactly when no entry has the key. -/
theorem Index.Get_eq_none {K : Type} [DecidableEq K] (k : K) (idx : Index K) :
    Index.Get k idx = none ↔ ∀ e ∈ idx, e.1 ≠ k := by
  induction idx with
  | nil => simp [Index.Get]
  | cons e0 es ih =>
    unfold Index.Get
    split_ifs with h1
    · simp [h1]
    · simp [ih, h1]

/-- What a lookup finds is an entry of the index under the key. -/
theorem Index.Get_eq_some {K : Type} [DecidableEq K] (k : K) (idx : Index K) (v : User)
    (h : Index.Get k idx = some v) : (k, v) ∈ idx := by
  induction idx with
  | nil => simp [Index.Get] at h
  | cons e0 es ih =>
    unfold Index.Get at h
    split_ifs at h with h1
    · have hv : e0.2 = v := Option.some.inj h
      have : e0 = (k, v) := Prod.ext h1 hv
      rw [this]; exact List.mem_cons_self _ _
    · exact List.mem_cons_of_mem _ (ih h)

/-- An index in strictly ascending key order has one entry per key. -/
theorem Index.key_unique {K : Type} [LinearOrder K] (idx : Index K) (h : Index.Sorted idx)
    (a b : K × User) (ha : a ∈ idx) (hb : b ∈ idx) (hk : a.1 = b.1) : a = b := by
  induction idx with
  | nil => simp at ha
  | cons e0 es ih =>
    have hs : (∀ a ∈ es, e0.1 < a.1) ∧ Index.Sorted es := List.pairwise_cons.1 h
    rcases List.mem_cons.1 ha with ha0 | ha1 <;> rcases List.mem_cons.1 hb with hb0 | hb1
    · rw [ha0, hb0]
    · rw [ha0] at hk; exact absurd hk (ne_of_lt (hs.1 b hb1))
    · rw [hb0] at hk; exact absurd hk.symm (ne_of_lt (hs.1 a ha1))
    · exact ih hs.2 ha1 hb1

/-! ## The insert keeps the invariant -/

/-- Two different strings have different character sequences. -/
theorem data_ne_of_ne {a b : String} (h : a ≠ b) : a.data ≠ b.data := by
  intro hd
  exact h (String.ext hd)

/-- The insert of a user whose email is not yet a primary key: one new entry in
each index. -/
theorem Txn.Insert_none (db : MemDB) (u : User) (hu : u.Email ≠ "")
    (hget : Index.Get u.Email.data db.id = none) :
    (db.Txn true).Insert u = .ok
      { write := true,
        ints := db.ints,
        id := Index.Insert u.Email.data u db.id,
        age := Index.Insert (toLex (encodeInt db.ints u.Age, u.Email.data)) u db.age } := by
  simp [Txn.Insert, MemDB.Txn, StringFieldIndex.FromObject, IntFieldIndex.FromObject, hu, hget]

/-- The insert of a user whose email is the primary key of a stored user `old`:
the entry of `old` is replaced in `"id"`, and in `"age"` it is removed first when
the key of the age changes. -/
theorem Txn.Insert_some (db : MemDB) (h : db.WF) (u old : User) (hu : u.Email ≠ "")
    (hget : Index.Get u.Email.data db.id = some old) :
    (db.Txn true).Insert u = .ok
      { write := true,
        ints := db.ints,
        id := Index.Insert u.Email.data u db.id,
        age := Index.Insert (toLex (encodeInt db.ints u.Age, u.Email.data)) u
          (if encodeInt db.ints old.Age = encodeInt db.ints u.Age then db.age
           else Index.Delete (toLex (encodeInt db.ints old.Age, u.Email.data)) db.age) } := by
  have hmem := Index.Get_eq_some _ _ _ hget
  have hk := h.id_key _ hmem
  simp only at hk
  have hold : old.Email ≠ "" := hk.1
  simp [Txn.Insert, MemDB.Txn, StringFieldIndex.FromObject, IntFieldIndex.FromObject, hu, hget,
    hold, ← hk.2]

/-- A stored user is filed in the index `"id"` under its email. -/
theorem mem_id_of_mem_users (db : MemDB) (h : db.WF) (v : User)
    (hv : v ∈ db.id.map Prod.snd) : (v.Email.data, v) ∈ db.id := by
  obtain ⟨e, he, rfl⟩ := List.mem_map.1 hv
  have hk := (h.id_key e he).2
  have : e = (e.2.Email.data, e.2) := Prod.ext hk rfl
  rw [← this]; exact he

/-- An entry of the index `"age"` with the email of `u` is the entry of the user
the primary index holds under that email. -/
theorem age_stale (db : MemDB) (h : db.WF) (u : User) (e : (List Nat ×ₗ List Char) × User)
    (he : e ∈ db.age) (hem : e.2.Email = u.Email) :
    Index.Get u.Email.data db.id = some e.2 := by
  have hv : e.2 ∈ db.id.map Prod.snd := (h.same e.2).2 (List.mem_map.2 ⟨e, he, rfl⟩)
  have hid := mem_id_of_mem_users db h e.2 hv
  rw [hem] at hid
  cases hget : Index.Get u.Email.data db.id with
  | none => exact absurd rfl ((Index.Get_eq_none _ _).1 hget _ hid)
  | some old =>
    have hold := Index.Get_eq_some _ _ _ hget
    have := Index.key_unique db.id h.id_sorted _ _ hold hid rfl
    rw [(Prod.mk.inj this).2]

/-- An entry of the index `"age"` with another email has another key. -/
theorem age_key_ne (db : MemDB) (h : db.WF) (u : User) (a : List Nat)
    (e : (List Nat ×ₗ List Char) × User) (he : e ∈ db.age) (hem : e.2.Email ≠ u.Email) :
    e.1 ≠ toLex (a, u.Email.data) := by
  rw [h.age_key e he]
  intro hk
  have := (Prod.mk.inj (toLex.injective hk)).2
  exact hem (String.ext this)

/-- The index `"age"` through an insert: after the stale entry is removed, the
entries that are not overwritten are the old entries with another email. -/
theorem insert_age (db : MemDB) (h : db.WF) (u : User) (hu : u.Email ≠ "") :
    ∃ age0 : Index (List Nat ×ₗ List Char),
      (db.Txn true).Insert u = .ok
        { write := true,
          ints := db.ints,
          id := Index.Insert u.Email.data u db.id,
          age := Index.Insert (toLex (encodeInt db.ints u.Age, u.Email.data)) u age0 } ∧
      Index.Sorted age0 ∧
      ∀ e, (e ∈ age0 ∧ e.1 ≠ toLex (encodeInt db.ints u.Age, u.Email.data)) ↔
        (e ∈ db.age ∧ e.2.Email ≠ u.Email) := by
  cases hget : Index.Get u.Email.data db.id with
  | none =>
    refine ⟨db.age, Txn.Insert_none db u hu hget, h.age_sorted, ?_⟩
    intro e
    constructor
    · rintro ⟨he, _⟩
      refine ⟨he, ?_⟩
      intro hem
      have := age_stale db h u e he hem
      rw [hget] at this
      exact Option.noConfusion this
    · rintro ⟨he, hem⟩
      exact ⟨he, age_key_ne db h u _ e he hem⟩
  | some old =>
    by_cases hage : encodeInt db.ints old.Age = encodeInt db.ints u.Age
    · refine ⟨db.age, ?_, h.age_sorted, ?_⟩
      · rw [Txn.Insert_some db h u old hu hget, if_pos hage]
      · intro e
        constructor
        · rintro ⟨he, hk⟩
          refine ⟨he, ?_⟩
          intro hem
          have := age_stale db h u e he hem
          rw [hget] at this
          have ho : old = e.2 := Option.some.inj this
          apply hk
          rw [h.age_key e he, hem, ← ho, hage]
        · rintro ⟨he, hem⟩
          exact ⟨he, age_key_ne db h u _ e he hem⟩
    · refine ⟨Index.Delete (toLex (encodeInt db.ints old.Age, u.Email.data)) db.age, ?_,
        Index.sorted_Delete _ _ h.age_sorted, ?_⟩
      · rw [Txn.Insert_some db h u old hu hget, if_neg hage]
      · intro e
        rw [Index.mem_Delete]
        constructor
        · rintro ⟨⟨he, hk⟩, _⟩
          refine ⟨he, ?_⟩
          intro hem
          have := age_stale db h u e he hem
          rw [hget] at this
          have ho : old = e.2 := Option.some.inj this
          apply hk
          rw [h.age_key e he, hem, ← ho]
        · rintro ⟨he, hem⟩
          exact ⟨⟨he, age_key_ne db h u _ e he hem⟩, age_key_ne db h u _ e he hem⟩

/-- An insert of a user with an email succeeds on a well-formed table, keeps it
well formed, and leaves the inserted user and the users with another email. -/
theorem insert_wf (db : MemDB) (h : db.WF) (u : User) (hu : u.Email ≠ "") :
    ∃ txn : Txn, (db.Txn true).Insert u = .ok txn ∧ txn.write = true ∧
      txn.ints = db.ints ∧ (MemDB.mk txn.ints txn.id txn.age).WF ∧
      ∀ v, v ∈ txn.id.map Prod.snd ↔ v = u ∨ (v ∈ db.id.map Prod.snd ∧ v.Email ≠ u.Email) := by
  obtain ⟨age0, hins, hsorted, hage0⟩ := insert_age db h u hu
  have hid : ∀ v, v ∈ (Index.Insert u.Email.data u db.id).map Prod.snd ↔
      v = u ∨ (v ∈ db.id.map Prod.snd ∧ v.Email ≠ u.Email) := by
    intro v
    constructor
    · intro hv
      obtain ⟨e, he, rfl⟩ := List.mem_map.1 hv
      rcases (Index.mem_Insert _ _ _ h.id_sorted e).1 he with he | ⟨he, hk⟩
      · left; rw [he]
      · right
        refine ⟨List.mem_map.2 ⟨e, he, rfl⟩, ?_⟩
        intro hem
        apply hk
        rw [(h.id_key e he).2, hem]
    · rintro (hv | ⟨hv, hem⟩)
      · subst hv
        exact List.mem_map.2 ⟨_, (Index.mem_Insert _ _ _ h.id_sorted _).2 (Or.inl rfl), rfl⟩
      · have := mem_id_of_mem_users db h v hv
        refine List.mem_map.2 ⟨_, (Index.mem_Insert _ _ _ h.id_sorted _).2
          (Or.inr ⟨this, ?_⟩), rfl⟩
        exact data_ne_of_ne hem
  have hage : ∀ v,
      v ∈ (Index.Insert (toLex (encodeInt db.ints u.Age, u.Email.data)) u age0).map Prod.snd ↔
      v = u ∨ (v ∈ db.age.map Prod.snd ∧ v.Email ≠ u.Email) := by
    intro v
    constructor
    · intro hv
      obtain ⟨e, he, rfl⟩ := List.mem_map.1 hv
      rcases (Index.mem_Insert _ _ _ hsorted e).1 he with he | he
      · left; rw [he]
      · right
        have := (hage0 e).1 he
        exact ⟨List.mem_map.2 ⟨e, this.1, rfl⟩, this.2⟩
    · rintro (hv | ⟨hv, hem⟩)
      · subst hv
        exact List.mem_map.2 ⟨_, (Index.mem_Insert _ _ _ hsorted _).2 (Or.inl rfl), rfl⟩
      · obtain ⟨e, he, rfl⟩ := List.mem_map.1 hv
        exact List.mem_map.2 ⟨e, (Index.mem_Insert _ _ _ hsorted _).2
          (Or.inr ((hage0 e).2 ⟨he, hem⟩)), rfl⟩
  refine ⟨_, hins, rfl, rfl, ?_, hid⟩
  constructor
  · exact Index.sorted_Insert _ _ _ h.id_sorted
  · intro e he
    rcases (Index.mem_Insert _ _ _ h.id_sorted e).1 he with he | ⟨he, _⟩
    · rw [he]; exact ⟨hu, rfl⟩
    · exact h.id_key e he
  · exact Index.sorted_Insert _ _ _ hsorted
  · intro e he
    rcases (Index.mem_Insert _ _ _ hsorted e).1 he with he | he
    · rw [he]
    · exact h.age_key e ((hage0 e).1 he).1
  · intro v
    show v ∈ (Index.Insert u.Email.data u db.id).map Prod.snd ↔
      v ∈ (Index.Insert (toLex (encodeInt db.ints u.Age, u.Email.data)) u age0).map Prod.snd
    rw [hid, hage, h.same]

/-! ## The loops and the calls -/

/-- The loop of `List` and `SearchName` appends the whole iterator. -/
theorem appendAll_eq (it : ResultIterator) (users : List User) :
    appendAll it users = users ++ it := by
  induction it generalizing users with
  | nil => simp [appendAll]
  | cons raw it ih => simp [appendAll, ih]

/-- The loop of `SearchAge` appends the values up to the first age above 35. -/
theorem appendUpTo35_eq (it : ResultIterator) (users : List User) :
    appendUpTo35 it users = users ++ it.takeWhile (fun u => decide (u.Age ≤ 35)) := by
  induction it generalizing users with
  | nil => simp [appendUpTo35]
  | cons u it ih =>
    unfold appendUpTo35
    by_cases h : u.Age > 35
    · have h2 : ¬ u.Age ≤ 35 := not_le.2 h
      simp [h, List.takeWhile, h2]
    · have h2 : u.Age ≤ 35 := not_lt.1 h
      simp [h, List.takeWhile, h2, ih]

/-- The method `List` returns the stored users and the state it was called in. -/
theorem List_eq (svc : UserImpl) (req : ListReq) :
    svc.List req = .returned ⟨stored svc, ⟨.SUCCESS, ""⟩⟩ none svc := by
  simp [UserImpl.List, Txn.Get, MemDB.Txn, Txn.Abort, appendAll_eq, stored]

/-- Assigning an id leaves the email as it is. -/
theorem assignId_Email (xid : Xid) (u : User) : (assignId xid u).1.Email = u.Email := by
  unfold assignId
  split_ifs <;> rfl

/-- The method `Create` on a well-formed table, for a user with an email: it
returns `SUCCESS`, the table stays well formed, and the store holds the
inserted user and the users with another email. -/
theorem Create_some (svc : UserImpl) (xid : Xid) (u : User) (h : svc.DB.WF)
    (hu : u.Email ≠ "") :
    ∃ svc1, svc.Create xid ⟨some u⟩ =
        (.returned ⟨⟨.SUCCESS, ""⟩⟩ none svc1, (assignId xid u).2) ∧
      svc1.DB.WF ∧
      ∀ v, v ∈ stored svc1 ↔ v = (assignId xid u).1 ∨ (v ∈ stored svc ∧ v.Email ≠ u.Email) := by
  have hu1 : (assignId xid u).1.Email ≠ "" := by rw [assignId_Email]; exact hu
  obtain ⟨txn, hins, hw, _, hwf, hmem⟩ := insert_wf svc.DB h (assignId xid u).1 hu1
  refine ⟨{ svc with DB := txn.Commit svc.DB }, ?_, ?_, ?_⟩
  · simp [UserImpl.Create, hins]
  · simp only [Txn.Commit, hw, if_true]
    exact hwf
  · intro v
    simp only [stored, Txn.Commit, hw, if_true]
    rw [hmem, assignId_Email]

/-- The method `Create` panics for a user without an email. -/
theorem Create_empty_Email (svc : UserImpl) (xid : Xid) (u : User) (hu : u.Email = "") :
    svc.Create xid ⟨some u⟩ = (.panicked "object missing primary index", (assignId xid u).2) := by
  have hu1 : (assignId xid u).1.Email = "" := by rw [assignId_Email]; exact hu
  simp [UserImpl.Create, Txn.Insert, MemDB.Txn, StringFieldIndex.FromObject, hu1]

/-- A `Create` that returns was given a user with an email. -/
theorem Create_returned (svc svc1 : UserImpl) (xid xid1 : Xid) (req : CreateReq)
    (resp : CreateResp) (err : Option String)
    (h : svc.Create xid req = (.returned resp err svc1, xid1)) :
    ∃ u, req = ⟨some u⟩ ∧ u.Email ≠ "" := by
  cases req with
  | mk user =>
    cases user with
    | none => simp [UserImpl.Create] at h
    | some u =>
      refine ⟨u, rfl, ?_⟩
      intro hu
      rw [Create_empty_Email svc xid u hu] at h
      simp at h

/-- A `SearchAge` that returns leaves the state as it is, with a nil error. -/
theorem SearchAge_state (svc svc1 : UserImpl) (req : SearchAgeReq) (resp : SearchResp)
    (err : Option String) (h : svc.SearchAge req = .returned resp err svc1) :
    svc1 = svc ∧ err = none := by
  unfold UserImpl.SearchAge at h
  split at h
  · simp at h; exact ⟨h.2.2.symm, h.2.1.symm⟩
  · split_ifs at h
    · simp at h; exact ⟨h.2.2.symm, h.2.1.symm⟩
    · simp [Txn.Abort] at h; exact ⟨h.2.2.symm, h.2.1.symm⟩

/-- A `SearchName` that returns leaves the state as it is, with a nil error. -/
theorem SearchName_state (svc svc1 : UserImpl) (req : SearchNameReq) (resp : SearchResp)
    (err : Option String) (h : svc.SearchName req = .returned resp err svc1) :
    svc1 = svc ∧ err = none := by
  unfold UserImpl.SearchName at h
  split_ifs at h
  · simp at h; exact ⟨h.2.2.symm, h.2.1.symm⟩
  · simp only at h
    split at h
    · simp at h
    · simp [Txn.Abort] at h; exact ⟨h.2.2.symm, h.2.1.symm⟩

/-- The empty table is well formed. -/
theorem NewUserImpl_wf (enc : IntEncoding) : (NewUserImpl enc).DB.WF := by
  constructor <;> simp [NewUserImpl, NewDB, Index.Sorted]

/-- The table of every reachable state is well formed. -/
theorem Reachable.wf {svc : UserImpl} (h : Reachable svc) : svc.DB.WF := by
  induction h with
  | init enc => exact NewUserImpl_wf enc
  | create _ hc ih =>
    obtain ⟨u, rfl, hu⟩ := Create_returned _ _ _ _ _ _ _ hc
    obtain ⟨svc2, h2, hwf, _⟩ := Create_some _ _ u ih hu
    rw [h2] at hc
    simp at hc
    rw [← hc.1.2.2]; exact hwf
  | list _ hc ih =>
    rw [List_eq] at hc
    simp at hc
    rw [← hc.2.2]; exact ih
  | searchAge _ hc ih => rw [(SearchAge_state _ _ _ _ _ hc).1]; exact ih
  | searchName _ hc ih => rw [(SearchName_state _ _ _ _ _ hc).1]; exact ih

/-! ## The two encodings of an integer key -/

/-- Two lists of bytes with a first byte each compare by the first byte, then
by the rest. -/
theorem lex_cons (a b : Nat) (l m : List Nat) :
    (a :: l) < (b :: m) ↔ a < b ∨ (a = b ∧ l < m) := by
  constructor
  · intro h
    cases h with
    | cons h => exact Or.inr ⟨rfl, h⟩
    | rel h => exact Or.inl h
  · rintro (h | ⟨rfl, h⟩)
    · exact List.Lex.rel h
    · exact List.Lex.cons h

/-- The `varint` key of an integer from 0 to 63 is one byte, twice the integer,
and zeros. -/
theorem encodeVarint_small (a : Int) (h0 : 0 ≤ a) (h1 : a < 64) :
    encodeVarint a = [(2 * a).toNat, 0, 0, 0, 0] := by
  have hz : zigzag a = (2 * a).toNat := by simp [zigzag, h0]
  have hlt : (2 * a).toNat < 128 := by omega
  simp [encodeVarint, PutUvarint, hz, hlt, List.replicate]

/-- The `varint` key of an integer from 64 on starts with a byte of 128 or
more. -/
theorem encodeVarint_large (a : Int) (h1 : 64 ≤ a) :
    ∃ x t, encodeVarint a = x :: t ∧ 128 ≤ x := by
  have h0 : 0 ≤ a := by omega
  have hz : zigzag a = (2 * a).toNat := by simp [zigzag, h0]
  have hlt : ¬ (2 * a).toNat < 128 := by omega
  refine ⟨(2 * a).toNat % 128 + 128, PutUvarint 4 ((2 * a).toNat / 128), ?_, by omega⟩
  simp [encodeVarint, PutUvarint, hz, hlt]

/-- The `varint` keys of an integer from 0 to 63 and of a non-negative integer
compare as the integers do. -/
theorem encodeVarint_lt (a b : Int) (h0 : 0 ≤ a) (h1 : a < 64) (hb : 0 ≤ b) :
    (encodeVarint a < encodeVarint b ↔ a < b) ∧ (encodeVarint b < encodeVarint a ↔ b < a) := by
  rw [encodeVarint_small a h0 h1]
  by_cases hb64 : b < 64
  · rw [encodeVarint_small b hb hb64]
    simp only [lex_cons, lt_irrefl, and_false, or_false]
    constructor <;> omega
  · obtain ⟨x, t, hx, h128⟩ := encodeVarint_large b (by omega)
    rw [hx]
    simp only [lex_cons]
    constructor <;> omega

/-- The `bigEndian` keys of two non-negative 32-bit integers compare as the
integers do. -/
theorem encodeBigEndian_lt (a b : Int) (ha : NonNegInt32 a) (hb : NonNegInt32 b) :
    encodeBigEndian a < encodeBigEndian b ↔ a < b := by
  obtain ⟨ha0, ha1⟩ := ha
  obtain ⟨hb0, hb1⟩ := hb
  obtain ⟨n, rfl⟩ := Int.eq_ofNat_of_zero_le ha0
  obtain ⟨m, rfl⟩ := Int.eq_ofNat_of_zero_le hb0
  have hn : (((n : Int) + 2147483648) % 4294967296).toNat = n + 2147483648 := by omega
  have hm : (((m : Int) + 2147483648) % 4294967296).toNat = m + 2147483648 := by omega
  simp only [encodeBigEndian, hn, hm, lex_cons]
  have : ¬ (([] : List Nat) < []) := lt_irrefl _
  simp only [this, and_false, or_false]
  omega

/-- In both encodings the key of an integer from 0 to 35 and the key of a
non-negative 32-bit integer compare as the integers do. -/
theorem encodeInt_lt (enc : IntEncoding) (a b : Int) (h0 : 0 ≤ a) (h1 : a ≤ 35)
    (hb : NonNegInt32 b) :
    (encodeInt enc a < encodeInt enc b ↔ a < b) ∧ (encodeInt enc b < encodeInt enc a ↔ b < a) := by
  cases enc with
  | varint => exact encodeVarint_lt a b h0 (by omega) hb.1
  | bigEndian =>
    have ha : NonNegInt32 a := ⟨h0, by omega⟩
    exact ⟨encodeBigEndian_lt a b ha hb, encodeBigEndian_lt b a hb ha⟩

/-! ## Order of the two indexes -/

/-- A key of the index `"age"` is below a seek key exactly when its age key is
below the one sought. -/
theorem ageKey_lt_seek (k s : List Nat) (l : List Char) :
    (toLex (k, l) : List Nat ×ₗ List Char) < toLex (s, []) ↔ k < s := by
  rw [Prod.Lex.lt_iff]
  constructor
  · rintro (h | ⟨_, h⟩)
    · exact h
    · exact absurd h (List.Lex.not_nil_right _ _)
  · intro h; exact Or.inl h

/-- The lower-bound walk of the index `"age"` skips the users whose age key is
below the key of `v`. -/
theorem lowerBound_users (enc : IntEncoding) (v : Int) (idx : Index (List Nat ×ₗ List Char))
    (hk : ∀ e ∈ idx, e.1 = toLex (encodeInt enc e.2.Age, e.2.Email.data)) :
    (Index.LowerBound (toLex (IntFieldIndex.FromArgs enc v, [])) idx).map Prod.snd =
      (idx.map Prod.snd).dropWhile (fun u => decide (encodeInt enc u.Age < encodeInt enc v)) := by
  induction idx with
  | nil => simp [Index.LowerBound]
  | cons e es ih =>
    have he := hk e (List.mem_cons_self _ _)
    have hes : ∀ x ∈ es, x.1 = toLex (encodeInt enc x.2.Age, x.2.Email.data) :=
      fun x hx => hk x (List.mem_cons_of_mem _ hx)
    have hiff : e.1 < toLex (IntFieldIndex.FromArgs enc v, []) ↔
        encodeInt enc e.2.Age < encodeInt enc v := by
      rw [he]; exact ageKey_lt_seek _ _ _
    unfold Index.LowerBound at ih ⊢
    by_cases h : encodeInt enc e.2.Age < encodeInt enc v
    · simp [List.dropWhile, hiff.2 h, h, ih hes]
    · simp [List.dropWhile, mt hiff.1 h, h]

/-- The users of the index `"age"` are in strictly ascending order of age key
followed by email. -/
theorem age_users_sorted (db : MemDB) (h : db.WF) :
    (db.age.map Prod.snd).Pairwise
      (fun a b => (toLex (encodeInt db.ints a.Age, a.Email.data) : List Nat ×ₗ List Char) <
        toLex (encodeInt db.ints b.Age, b.Email.data)) := by
  rw [List.pairwise_map]
  refine List.Pairwise.imp_of_mem ?_ h.age_sorted
  intro a b ha hb hab
  rw [← h.age_key a ha, ← h.age_key b hb]
  exact hab

/-- The users of the index `"age"` are in ascending order of age key. -/
theorem age_users_keys (db : MemDB) (h : db.WF) :
    (db.age.map Prod.snd).Pairwise
      (fun a b => encodeInt db.ints a.Age ≤ encodeInt db.ints b.Age) := by
  refine List.Pairwise.imp ?_ (age_users_sorted db h)
  intro a b hab
  rcases (Prod.Lex.lt_iff _ _).1 hab with h1 | ⟨h1, _⟩
  · exact le_of_lt h1
  · exact le_of_eq h1

/-- When the ages are non-negative 32-bit integers, a user of the index `"age"`
of age at most 35 comes after the users that are not older. -/
theorem age_users_ascending (db : MemDB) (h : db.WF)
    (hages : ∀ u ∈ db.age.map Prod.snd, NonNegInt32 u.Age) :
    (db.age.map Prod.snd).Pairwise (fun a b => b.Age ≤ 35 → a.Age ≤ b.Age) := by
  refine List.Pairwise.imp_of_mem ?_ (age_users_keys db h)
  intro a b ha hb hab hb35
  by_contra hlt
  have := (encodeInt_lt db.ints b.Age a.Age (hages b hb).1 hb35 (hages a ha)).1.2 (not_le.1 hlt)
  exact absurd hab (not_le.2 this)

/-- No user occurs twice in the index `"age"`. -/
theorem age_users_nodup (db : MemDB) (h : db.WF) : (db.age.map Prod.snd).Nodup := by
  refine List.Pairwise.imp ?_ (age_users_sorted db h)
  intro a b hab heq
  rw [heq] at hab
  exact lt_irrefl _ hab

/-- The stored users are in strictly ascending order of email. -/
theorem stored_sorted (svc : UserImpl) (h : svc.DB.WF) :
    (stored svc).Pairwise (fun a b => a.Email.data < b.Email.data) := by
  unfold stored
  rw [List.pairwise_map]
  refine List.Pairwise.imp_of_mem ?_ h.id_sorted
  intro a b ha hb hab
  rw [← (h.id_key a ha).2, ← (h.id_key b hb).2]
  exact hab

/-- No user is stored twice. -/
theorem stored_nodup (svc : UserImpl) (h : svc.DB.WF) : (stored svc).Nodup := by
  refine List.Pairwise.imp ?_ (stored_sorted svc h)
  intro a b hab heq
  rw [heq] at hab
  exact lt_irrefl _ hab

/-! ## A walk over an ordered list is a filter -/

/-- Skipping a prefix by a test that holds of every element before one of which
it holds keeps exactly the elements of which it does not hold. -/
theorem dropWhile_eq_filter (d : User → Bool) (l : List User)
    (h : l.Pairwise (fun a b => d b = true → d a = true)) :
    l.dropWhile d = l.filter (fun u => !d u) := by
  induction l with
  | nil => rfl
  | cons a l ih =>
    have hs := List.pairwise_cons.1 h
    cases ha : d a with
    | true => simp [List.dropWhile, List.filter, ha, ih hs.2]
    | false =>
      have hall : l.filter (fun u => !d u) = l :=
        List.filter_eq_self.2 (fun b hb => by
          cases hb1 : d b with
          | false => rfl
          | true => rw [hs.1 b hb hb1] at ha; exact Bool.noConfusion ha)
      simp [List.dropWhile, List.filter, ha, hall]

/-- Stopping at the first element of which a test fails, when the test holds of
every element before one of which it holds, keeps exactly the elements of which
it holds. -/
theorem takeWhile_eq_filter (p : User → Bool) (l : List User)
    (h : l.Pairwise (fun a b => p b = true → p a = true)) :
    l.takeWhile p = l.filter p := by
  induction l with
  | nil => rfl
  | cons a l ih =>
    have hs := List.pairwise_cons.1 h
    cases ha : p a with
    | true => simp [List.takeWhile, List.filter, ha, ih hs.2]
    | false =>
      have hnone : l.filter p = [] :=
        List.filter_eq_nil_iff.2 (fun b hb hb1 => by
          rw [hs.1 b hb hb1] at ha; exact Bool.noConfusion ha)
      simp [List.takeWhile, List.filter, ha, hnone]

/-- Every element a walk keeps up to the first failure of a test passes the
test. -/
theorem mem_takeWhile_true (p : User → Bool) (l : List User) (x : User)
    (h : x ∈ l.takeWhile p) : p x = true := by
  induction l with
  | nil => simp at h
  | cons a l ih =>
    cases ha : p a with
    | false => simp [List.takeWhile, ha] at h
    | true =>
      simp only [List.takeWhile, ha] at h
      rcases List.mem_cons.1 h with h1 | h1
      · rw [h1]; exact ha
      · exact ih h1

/-- The walk of `SearchAge`: the users of the index `"age"` from the first one
whose age key is not below the key of `v`, up to the first one older than
35. -/
theorem searchAge_walk (db : MemDB) (h : db.WF) (v : Int) :
    appendUpTo35 ((db.Txn false).LowerBound v) [] =
      ((db.age.map Prod.snd).dropWhile
        (fun u => decide (encodeInt db.ints u.Age < encodeInt db.ints v))).takeWhile
        (fun u => decide (u.Age ≤ 35)) := by
  rw [appendUpTo35_eq, List.nil_append]
  unfold Txn.LowerBound MemDB.Txn
  simp only
  rw [lowerBound_users db.ints v db.age h.age_key]

/-- The users `SearchAge` returns for a range starting at the non-negative `v`,
when the ages are non-negative 32-bit integers: the walk is the filter of the
index `"age"` on `v ≤ Age ≤ 35`. -/
theorem searchAge_users (db : MemDB) (h : db.WF) (v : Int) (hv : NonNegInt32 v)
    (hages : ∀ u ∈ db.age.map Prod.snd, NonNegInt32 u.Age) :
    appendUpTo35 ((db.Txn false).LowerBound v) [] =
      (db.age.map Prod.snd).filter (fun u => decide (v ≤ u.Age) && decide (u.Age ≤ 35)) := by
  have hd : (db.age.map Prod.snd).Pairwise
      (fun a b => decide (encodeInt db.ints b.Age < encodeInt db.ints v) = true →
        decide (encodeInt db.ints a.Age < encodeInt db.ints v) = true) := by
    refine List.Pairwise.imp ?_ (age_users_keys db h)
    intro a b hab hb
    exact decide_eq_true (lt_of_le_of_lt hab (of_decide_eq_true hb))
  have hp : (db.age.map Prod.snd).Pairwise
      (fun a b => decide (b.Age ≤ 35) = true → decide (a.Age ≤ 35) = true) := by
    refine List.Pairwise.imp ?_ (age_users_ascending db h hages)
    intro a b hab hb
    have hb35 : b.Age ≤ 35 := of_decide_eq_true hb
    exact decide_eq_true (le_trans (hab hb35) hb35)
  rw [searchAge_walk db h v, dropWhile_eq_filter _ _ hd, takeWhile_eq_filter _ _ (hp.filter _),
    List.filter_filter]
  apply List.filter_congr
  intro u hu
  by_cases hu35 : u.Age ≤ 35
  · have hiff := (encodeInt_lt db.ints u.Age v (hages u hu).1 hu35 hv).1
    by_cases hlt : u.Age < v
    · have : ¬ v ≤ u.Age := not_le.2 hlt
      simp [hu35, hiff.2 hlt, this]
    · have : v ≤ u.Age := not_lt.1 hlt
      simp [hu35, mt hiff.1 hlt, this]
  · simp [hu35]

/-! ## The claims -/

/-- The store holding Anna is reachable: one `Create` on the empty store. -/
theorem svcA_reachable (enc : IntEncoding) : Reachable (svcA enc) :=
  Reachable.create (Reachable.init enc)
    (rfl : (NewUserImpl enc).Create sampleXid ⟨some anna⟩ =
      (.returned createOk none (svcA enc), sampleXid))

/-- The store holding Anna and Bob is reachable: a second `Create`. -/
theorem svcAB_reachable (enc : IntEncoding) : Reachable (svcAB enc) :=
  Reachable.create (svcA_reachable enc)
    (by cases enc <;> rfl : (svcA enc).Create sampleXid ⟨some bob⟩ =
      (.returned createOk none (svcAB enc), sampleXid))

/-- C1: on the store holding Anna (30) and Bob (40), built by two `Create`
calls, `SearchAge(36, 45)` returns no user although Bob's age is in the range,
and `SearchAge(10, 20)` returns Anna although her age is above 20: the loop
stops at the constant 35, not at `ToIncluded`. This is so on either release of
the library. -/
theorem C1_SearchAge_stops_at_35 :
    bob.Age = 40 ∧ anna.Age = 30 ∧
    ∀ enc : IntEncoding,
      (NewUserImpl enc).Create sampleXid ⟨some anna⟩ =
        (.returned createOk none (svcA enc), sampleXid) ∧
      (svcA enc).Create sampleXid ⟨some bob⟩ =
        (.returned createOk none (svcAB enc), sampleXid) ∧
      (svcAB enc).SearchAge ⟨some ⟨36, 45⟩⟩ = .returned (okResp []) none (svcAB enc) ∧
      (svcAB enc).SearchAge ⟨some ⟨10, 20⟩⟩ = .returned (okResp [anna]) none (svcAB enc) :=
  ⟨rfl, rfl, fun enc => by cases enc <;> exact ⟨rfl, rfl, rfl, rfl⟩⟩

/-- C2: on the store holding Anna Banner, `SearchName("ann")` returns no user
although her last name contains `"ann"`; `SearchName("nn")`, which occurs in
her first name, returns her. The filter tests the first name twice and the
last name never. -/
theorem C2_SearchName_ignores_last_name :
    strings.Contains "Banner" "ann" = true ∧
    strings.Contains "Anna" "ann" = false ∧
    ∀ enc : IntEncoding,
      (NewUserImpl enc).Create sampleXid ⟨some anna⟩ =
        (.returned createOk none (svcA enc), sampleXid) ∧
      (svcA enc).SearchName ⟨"ann"⟩ = .returned (okResp []) none (svcA enc) ∧
      (svcA enc).SearchName ⟨"nn"⟩ = .returned (okResp [anna]) none (svcA enc) :=
  ⟨rfl, rfl, fun _ => ⟨rfl, rfl, rfl⟩⟩

/-- A list without repetition in which `a` is the only member that satisfies `p`
filters to `[a]`. -/
theorem filter_eq_singleton (p : User → Bool) (a : User) (l : List User) (hn : l.Nodup)
    (ha : a ∈ l) (hp : p a = true) (huniq : ∀ v ∈ l, p v = true → v = a) :
    l.filter p = [a] := by
  induction l with
  | nil => simp at ha
  | cons x l ih =>
    have hx := List.nodup_cons.1 hn
    by_cases hax : x = a
    · subst hax
      have hnil : l.filter p = [] :=
        List.filter_eq_nil_iff.2 (fun v hv hpv =>
          hx.1 ((huniq v (List.mem_cons_of_mem _ hv) hpv) ▸ hv))
      simp [List.filter, hp, hnil]
    · have hal : a ∈ l := by
        rcases List.mem_cons.1 ha with h | h
        · exact absurd h.symm hax
        · exact h
      have hpx : p x = false := by
        cases hpx : p x with
        | false => rfl
        | true => exact absurd (huniq x (List.mem_cons_self _ _) hpx) hax
      simp [List.filter, hpx, ih hx.2 hal (fun v hv => huniq v (List.mem_cons_of_mem _ hv))]

/-- C3, counterexample: Anna and a second user with Anna's id `"u1"` and another
email are created one after the other on the empty store; `List` then returns
both, two users with the id `"u1"`, on either release of the library. -/
theorem C3_same_Id_kept_twice :
    anna.Id = bobAsU1.Id ∧ anna.Id ≠ "" ∧
    [anna, bobAsU1].filter (fun u => decide (u.Id = "u1")) = [anna, bobAsU1] ∧
    ∀ enc : IntEncoding,
      (NewUserImpl enc).Create sampleXid ⟨some anna⟩ =
        (.returned createOk none (svcA enc), sampleXid) ∧
      (svcA enc).Create sampleXid ⟨some bobAsU1⟩ =
        (.returned createOk none (svcAU enc), sampleXid) ∧
      (svcAU enc).List {} = .returned (okResp [anna, bobAsU1]) none (svcAU enc) :=
  ⟨rfl, by decide, rfl, fun enc => by cases enc <;> exact ⟨rfl, rfl, rfl⟩⟩

/-- C3, amended: the unique primary index is keyed on `Email`. For every
reachable store and every two users `r1`, `r2` with the same non-empty email,
`Create(r1)` followed by `Create(r2)` both return `SUCCESS`, and `List` then
returns exactly one user with that email: `r2` as it was inserted (with its
own id, or the generated one when its id is empty). -/
theorem C3_replacement_by_Email (svc : UserImpl) (h : Reachable svc) (xid1 xid2 : Xid)
    (r1 r2 : User) (hsame : r1.Email = r2.Email) (hne : r1.Email ≠ "") :
    ∃ svc1 svc2 : UserImpl,
      svc.Create xid1 ⟨some r1⟩ = (.returned createOk none svc1, (assignId xid1 r1).2) ∧
      svc1.Create xid2 ⟨some r2⟩ = (.returned createOk none svc2, (assignId xid2 r2).2) ∧
      ∃ resp : SearchResp, svc2.List {} = .returned resp none svc2 ∧
        resp.Status.Code = .SUCCESS ∧
        resp.Users.filter (fun u => decide (u.Email = r2.Email)) = [(assignId xid2 r2).1] ∧
        (assignId xid2 r2).1.Age = r2.Age ∧ (assignId xid2 r2).1.Name = r2.Name ∧
        (r2.Id ≠ "" → (assignId xid2 r2).1 = r2) := by
  obtain ⟨svc1, hc1, hwf1, _⟩ := Create_some svc xid1 r1 h.wf hne
  have hne2 : r2.Email ≠ "" := hsame ▸ hne
  obtain ⟨svc2, hc2, hwf2, hmem2⟩ := Create_some svc1 xid2 r2 hwf1 hne2
  refine ⟨svc1, svc2, hc1, hc2, okResp (stored svc2), List_eq svc2 {}, rfl, ?_, ?_, ?_, ?_⟩
  · refine filter_eq_singleton _ _ _ (stored_nodup svc2 hwf2) ((hmem2 _).2 (Or.inl rfl)) ?_ ?_
    · simp [assignId_Email]
    · intro v hv hpv
      rcases (hmem2 v).1 hv with hv | ⟨_, hv⟩
      · exact hv
      · exact absurd (by simpa using hpv) hv
  · unfold assignId; split_ifs <;> rfl
  · unfold assignId; split_ifs <;> rfl
  · intro hid; simp [assignId, hid]

/-- C3, witness: Bob is created on the store holding Anna, then a user with
Bob's email. -/
theorem C3_replacement_by_Email_witness :
    Reachable (svcA .varint) ∧ bob.Email = bobAsU1.Email ∧ bob.Email ≠ "" ∧
    ∃ svc1 svc2 : UserImpl,
      (svcA .varint).Create sampleXid ⟨some bob⟩ =
        (.returned createOk none svc1, (assignId sampleXid bob).2) ∧
      svc1.Create sampleXid ⟨some bobAsU1⟩ =
        (.returned createOk none svc2, (assignId sampleXid bobAsU1).2) ∧
      ∃ resp : SearchResp, svc2.List {} = .returned resp none svc2 ∧
        resp.Status.Code = .SUCCESS ∧
        resp.Users.filter (fun u => decide (u.Email = bobAsU1.Email)) =
          [(assignId sampleXid bobAsU1).1] ∧
        (assignId sampleXid bobAsU1).1.Age = bobAsU1.Age ∧
        (assignId sampleXid bobAsU1).1.Name = bobAsU1.Name ∧
        (bobAsU1.Id ≠ "" → (assignId sampleXid bobAsU1).1 = bobAsU1) :=
  ⟨svcA_reachable .varint, rfl, by decide,
    C3_replacement_by_Email (svcA .varint) (svcA_reachable .varint) sampleXid sampleXid bob
      bobAsU1 rfl (by decide)⟩

/-- C4, counterexample: a user with the non-empty id `"u3"` and an empty email
is not stored; `Create` panics on the failed insert, on either release of the
library. -/
theorem C4_Create_without_Email_panics :
    noEmail.Id ≠ "" ∧
    ∀ enc : IntEncoding,
      (NewUserImpl enc).Create sampleXid ⟨some noEmail⟩ =
        (.panicked "object missing primary index", sampleXid) :=
  ⟨by decide, fun _ => rfl⟩

/-- C4, amended: for every reachable store and every user `r` with a non-empty
id and a non-empty email, `Create(r)` returns `SUCCESS` without consulting the
supplier, and the list `List` returns immediately afterwards contains `r`
exactly once. -/
theorem C4_Create_then_List (svc : UserImpl) (h : Reachable svc) (xid : Xid) (r : User)
    (hid : r.Id ≠ "") (hem : r.Email ≠ "") :
    ∃ svc1 : UserImpl, svc.Create xid ⟨some r⟩ = (.returned createOk none svc1, xid) ∧
      ∃ resp : SearchResp, svc1.List {} = .returned resp none svc1 ∧
        resp.Status.Code = .SUCCESS ∧ resp.Users.count r = 1 := by
  obtain ⟨svc1, hc1, hwf1, hmem1⟩ := Create_some svc xid r h.wf hem
  have ha : assignId xid r = (r, xid) := by simp [assignId, hid]
  rw [ha] at hc1 hmem1
  refine ⟨svc1, hc1, okResp (stored svc1), List_eq svc1 {}, rfl, ?_⟩
  exact List.count_eq_one_of_mem (stored_nodup svc1 hwf1) ((hmem1 r).2 (Or.inl rfl))

/-- C4, witness: Bob is created on the store holding Anna. -/
theorem C4_Create_then_List_witness :
    Reachable (svcA .varint) ∧ bob.Id ≠ "" ∧ bob.Email ≠ "" ∧
    ∃ svc1 : UserImpl,
      (svcA .varint).Create sampleXid ⟨some bob⟩ = (.returned createOk none svc1, sampleXid) ∧
      ∃ resp : SearchResp, svc1.List {} = .returned resp none svc1 ∧
        resp.Status.Code = .SUCCESS ∧ resp.Users.count bob = 1 :=
  ⟨svcA_reachable .varint, by decide, by decide,
    C4_Create_then_List (svcA .varint) (svcA_reachable .varint) sampleXid bob (by decide)
      (by decide)⟩

/-- C5: validation failures are reported as `INVALID_QUERY` and have no effect.
`SearchAge` always returns, with a nil error and the store unchanged, and its
status is `INVALID_QUERY` exactly when the range is absent or `From >
ToIncluded`; `SearchName` with the empty query returns `INVALID_QUERY` with a
nil error and the store unchanged, and whenever `SearchName` returns
`INVALID_QUERY` the query is empty. In each failing case the user list is empty
and the message is not. -/
theorem C5_invalid_query (svc : UserImpl) (ageReq : SearchAgeReq) (nameReq : SearchNameReq) :
    (∃ resp : SearchResp, svc.SearchAge ageReq = .returned resp none svc ∧
      (resp.Status.Code = .INVALID_QUERY ↔
        (ageReq.AgeRange = none ∨
          ∃ r : AgeRange, ageReq.AgeRange = some r ∧ r.From > r.ToIncluded)) ∧
      (resp.Status.Code = .INVALID_QUERY → resp.Users = [] ∧ resp.Status.Msg ≠ "")) ∧
    (nameReq.Query = "" →
      ∃ resp : SearchResp, svc.SearchName nameReq = .returned resp none svc ∧
        resp.Status.Code = .INVALID_QUERY ∧ resp.Users = [] ∧ resp.Status.Msg ≠ "") ∧
    (∀ (resp : SearchResp) (err : Option String) (svc1 : UserImpl),
      svc.SearchName nameReq = .returned resp err svc1 →
        err = none ∧ svc1 = svc ∧ (resp.Status.Code = .INVALID_QUERY → nameReq.Query = "")) := by
  refine ⟨?_, ?_, ?_⟩
  · cases ageReq with
    | mk range =>
      cases range with
      | none =>
        refine ⟨_, rfl, ?_, ?_⟩
        · simp
        · intro _; exact ⟨rfl, by decide⟩
      | some r =>
        by_cases hr : r.From > r.ToIncluded
        · refine ⟨⟨[], ⟨.INVALID_QUERY, "the From field must be lower or equal to ToIncluded"⟩⟩,
            ?_, ?_, ?_⟩
          · simp [UserImpl.SearchAge, hr]
          · simp [hr]
          · intro _; exact ⟨rfl, by decide⟩
        · refine ⟨okResp (appendUpTo35 ((svc.DB.Txn false).LowerBound r.From) []), ?_, ?_, ?_⟩
          · simp [UserImpl.SearchAge, hr, okResp, Txn.Abort]
          · simp [okResp, hr]
          · intro hc; simp [okResp] at hc
  · intro hq
    refine ⟨⟨[], ⟨.INVALID_QUERY, "query cannot be empty"⟩⟩, ?_, rfl, rfl, by decide⟩
    simp [UserImpl.SearchName, hq]
  · intro resp err svc1 hret
    obtain ⟨h1, h2⟩ := SearchName_state svc svc1 nameReq resp err hret
    refine ⟨h2, h1, ?_⟩
    intro hc
    by_contra hq
    unfold UserImpl.SearchName at hret
    rw [if_neg hq] at hret
    simp only at hret
    split at hret
    · simp at hret
    · simp at hret
      rw [← hret.1] at hc
      simp at hc

/-- C5, witness: `SearchAge(5, 2)` and `SearchName("")` on the store holding
Anna and Bob. -/
theorem C5_invalid_query_witness :
    (svcAB .varint).SearchAge ⟨some ⟨5, 2⟩⟩ =
        .returned ⟨[], ⟨.INVALID_QUERY, "the From field must be lower or equal to ToIncluded"⟩⟩
          none (svcAB .varint) ∧
    (svcAB .varint).SearchName ⟨""⟩ =
        .returned ⟨[], ⟨.INVALID_QUERY, "query cannot be empty"⟩⟩ none (svcAB .varint) ∧
    ∃ resp : SearchResp,
      (svcAB .varint).SearchAge ⟨some ⟨5, 2⟩⟩ = .returned resp none (svcAB .varint) ∧
      (resp.Status.Code = .INVALID_QUERY → resp.Users = [] ∧ resp.Status.Msg ≠ "") := by
  refine ⟨rfl, rfl, ?_⟩
  obtain ⟨resp, h1, _, h3⟩ := (C5_invalid_query (svcAB .varint) ⟨some ⟨5, 2⟩⟩ ⟨""⟩).1
  exact ⟨resp, h1, h3⟩

/-- C6, counterexample: on the store holding Anna, `Create` of a user without
an email panics: the insert fails, the user has no value for the primary
index. `Create` of a request without a user panics as well. Both on either
release of the library. -/
theorem C6_Create_panics_without_Email :
    noEmail.Email = "" ∧
    ∀ enc : IntEncoding,
      (svcA enc).Create sampleXid ⟨some noEmail⟩ =
        (.panicked "object missing primary index", sampleXid) ∧
      (svcA enc).Create sampleXid ⟨none⟩ =
        (.panicked "runtime error: invalid memory address or nil pointer dereference",
          sampleXid) :=
  ⟨rfl, fun _ => ⟨rfl, rfl⟩⟩

/-- C6, amended: for every store and every create request that carries a user,
whatever the user's id, age and name are, `Create` returns `SUCCESS` with a nil
error when the user's email is not empty, and panics on the failed insert when
it is empty. -/
theorem C6_Create_outcome (svc : UserImpl) (xid : Xid) (u : User) :
    (u.Email ≠ "" →
      ∃ svc1 : UserImpl,
        svc.Create xid ⟨some u⟩ = (.returned createOk none svc1, (assignId xid u).2)) ∧
    (u.Email = "" →
      svc.Create xid ⟨some u⟩ =
        (.panicked "object missing primary index", (assignId xid u).2)) := by
  refine ⟨?_, Create_empty_Email svc xid u⟩
  intro hu
  have hu1 : (assignId xid u).1.Email ≠ "" := by rw [assignId_Email]; exact hu
  simp [UserImpl.Create, Txn.Insert, MemDB.Txn, StringFieldIndex.FromObject, hu1, createOk]

/-- C6, witness: a user without an id and with an email is created on the
store holding Anna. -/
theorem C6_Create_outcome_witness :
    noId.Email ≠ "" ∧
    ∃ svc1 : UserImpl,
      (svcA .varint).Create sampleXid ⟨some noId⟩ =
        (.returned createOk none svc1, (assignId sampleXid noId).2) :=
  ⟨by decide, (C6_Create_outcome (svcA .varint) sampleXid noId).1 (by decide)⟩

/-- C7, counterexample: Anna (id `"u1"`, email `"a@x"`) and Carl (id `"u0"`,
email `"c@x"`) are created on the empty store; `List` returns Anna before Carl
although Carl's id, the record key, is the smaller one. The list is not in
ascending order of the record key, on either release of the library. -/
theorem C7_List_not_in_Id_order :
    carl.Id.data < anna.Id.data ∧ anna.Email.data < carl.Email.data ∧
    ∀ enc : IntEncoding,
      (NewUserImpl enc).Create sampleXid ⟨some anna⟩ =
        (.returned createOk none (svcA enc), sampleXid) ∧
      (svcA enc).Create sampleXid ⟨some carl⟩ =
        (.returned createOk none (svcAC enc), sampleXid) ∧
      (svcAC enc).List {} = .returned (okResp [anna, carl]) none (svcAC enc) :=
  ⟨by decide, by decide, fun enc => by cases enc <;> exact ⟨rfl, rfl, rfl⟩⟩

/-- C7, amended: for every reachable store, `List` returns `SUCCESS` with a nil
error and leaves the store as it is, so a second call returns the same
response; the list is the values of the primary index in index order, these
are exactly the users filed in the index `"age"`, no user occurs twice, and the
list is in strictly ascending order of the `Email`, the field the primary index
is keyed on; on the empty store the list is empty. -/
theorem C7_List_all (svc : UserImpl) (h : Reachable svc) (req : ListReq) :
    ∃ resp : SearchResp, svc.List req = .returned resp none svc ∧
      resp.Status.Code = .SUCCESS ∧
      resp.Users = svc.DB.id.map Prod.snd ∧
      (∀ u, u ∈ resp.Users ↔ u ∈ svc.DB.age.map Prod.snd) ∧
      resp.Users.Nodup ∧
      resp.Users.Pairwise (fun a b => a.Email.data < b.Email.data) ∧
      (∀ (resp1 : SearchResp) (err1 : Option String) (svc1 : UserImpl),
        svc.List req = .returned resp1 err1 svc1 → svc1.List req = .returned resp none svc1) ∧
      ∀ enc : IntEncoding,
        (NewUserImpl enc).List req = .returned (okResp []) none (NewUserImpl enc) := by
  refine ⟨okResp (stored svc), List_eq svc req, rfl, rfl, h.wf.same, stored_nodup svc h.wf,
    stored_sorted svc h.wf, ?_, fun _ => rfl⟩
  intro resp1 err1 svc1 h1
  rw [List_eq] at h1
  simp at h1
  rw [← h1.2.2]
  exact List_eq svc req

/-- C7, witness: `List` on the store holding Anna and Bob. -/
theorem C7_List_all_witness :
    Reachable (svcAB .varint) ∧
    (svcAB .varint).List {} = .returned (okResp [anna, bob]) none (svcAB .varint) ∧
    ∃ resp : SearchResp, (svcAB .varint).List {} = .returned resp none (svcAB .varint) ∧
      resp.Users.Nodup ∧ resp.Users.Pairwise (fun a b => a.Email.data < b.Email.data) := by
  refine ⟨svcAB_reachable .varint, rfl, ?_⟩
  obtain ⟨resp, h1, _, _, _, h5, h6, _⟩ := C7_List_all (svcAB .varint) (svcAB_reachable .varint) {}
  exact ⟨resp, h1, h5, h6⟩

/-- C8, counterexample: a user without an id and without an email is not stored
under a generated identifier; `Create` consults the supplier, which returns the
non-empty `"g1"`, and panics on the failed insert, on either release of the
library. -/
theorem C8_generated_id_without_Email_panics :
    noIdNoEmail.Id = "" ∧ sampleXid.New.1 ≠ "" ∧
    ∀ enc : IntEncoding,
      (∀ u ∈ stored (NewUserImpl enc), u.Id ≠ sampleXid.New.1) ∧
      (NewUserImpl enc).Create sampleXid ⟨some noIdNoEmail⟩ =
        (.panicked "object missing primary index", sampleXid1) :=
  ⟨rfl, by decide, fun _ => ⟨by simp [stored, NewUserImpl, NewDB], rfl⟩⟩

/-- C8, amended: for every reachable store and every user `r` with a non-empty
email. If the id of `r` is empty and the supplier returns a non-empty
identifier that is the id of no stored user, `Create(r)` returns `SUCCESS`
having called the supplier once, and the following `List` contains `r` with the
generated identifier as its id, an id that is non-empty and differs from the id
of every user stored before. If the id of `r` is not empty, `Create(r)` returns
`SUCCESS` with the supplier untouched and the following `List` contains `r`
itself. -/
theorem C8_key_generation (svc : UserImpl) (h : Reachable svc) (xid : Xid) (r : User)
    (hem : r.Email ≠ "") :
    (r.Id = "" → xid.New.1 ≠ "" → (∀ u ∈ stored svc, u.Id ≠ xid.New.1) →
      ∃ svc1 : UserImpl, svc.Create xid ⟨some r⟩ = (.returned createOk none svc1, xid.New.2) ∧
        ∃ resp : SearchResp, svc1.List {} = .returned resp none svc1 ∧
          ∃ u ∈ resp.Users, u.Id = xid.New.1 ∧ u.Age = r.Age ∧ u.Name = r.Name ∧
            u.Email = r.Email ∧ u.Id ≠ "" ∧ ∀ v ∈ stored svc, v.Id ≠ u.Id) ∧
    (r.Id ≠ "" →
      ∃ svc1 : UserImpl, svc.Create xid ⟨some r⟩ = (.returned createOk none svc1, xid) ∧
        ∃ resp : SearchResp, svc1.List {} = .returned resp none svc1 ∧ r ∈ resp.Users) := by
  obtain ⟨svc1, hc1, _, hmem1⟩ := Create_some svc xid r h.wf hem
  constructor
  · intro hid hnew hfresh
    have ha : assignId xid r = ({ r with Id := xid.New.1 }, xid.New.2) := by simp [assignId, hid]
    rw [ha] at hc1 hmem1
    refine ⟨svc1, hc1, okResp (stored svc1), List_eq svc1 {}, { r with Id := xid.New.1 },
      (hmem1 _).2 (Or.inl rfl), rfl, rfl, rfl, rfl, hnew, hfresh⟩
  · intro hid
    have ha : assignId xid r = (r, xid) := by simp [assignId, hid]
    rw [ha] at hc1 hmem1
    exact ⟨svc1, hc1, okResp (stored svc1), List_eq svc1 {}, (hmem1 r).2 (Or.inl rfl)⟩

/-- C8, witness: a user without an id and with an email is created on the
store holding Anna and Bob, with a supplier that returns `"g1"`. -/
theorem C8_key_generation_witness :
    Reachable (svcAB .varint) ∧ noId.Email ≠ "" ∧ noId.Id = "" ∧ sampleXid.New.1 ≠ "" ∧
    (∀ u ∈ stored (svcAB .varint), u.Id ≠ sampleXid.New.1) ∧
    ∃ svc1 : UserImpl,
      (svcAB .varint).Create sampleXid ⟨some noId⟩ =
        (.returned createOk none svc1, sampleXid.New.2) ∧
        ∃ resp : SearchResp, svc1.List {} = .returned resp none svc1 ∧
          ∃ u ∈ resp.Users, u.Id = sampleXid.New.1 ∧ u.Age = noId.Age ∧ u.Name = noId.Name ∧
            u.Email = noId.Email ∧ u.Id ≠ "" ∧ ∀ v ∈ stored (svcAB .varint), v.Id ≠ u.Id :=
  have hfresh : ∀ u ∈ stored (svcAB .varint), u.Id ≠ sampleXid.New.1 := by decide
  ⟨svcAB_reachable .varint, by decide, rfl, by decide, hfresh,
    (C8_key_generation (svcAB .varint) (svcAB_reachable .varint) sampleXid noId (by decide)).1
      rfl (by decide) hfresh⟩

/-- C10, counterexample: on the release with `varint` keys, a user of age -1
and a user of age 2 are created on the empty store. `SearchAge(0, 10)` returns
both, the user of age -1 included, and `SearchAge(-5, 10)` returns no user
although both ages are in the range: the key of -1 lies between the keys of 0
and 1, and the key of -5 above the key of 2. (On the release with `bigEndian`
keys the two calls return the users with `From ≤ Age ≤ 35`.) -/
theorem C10_negative_age_or_From_varint :
    minusOne.Age = -1 ∧ tot.Age = 2 ∧
    (NewUserImpl .varint).Create sampleXid ⟨some minusOne⟩ =
      (.returned createOk none (svcM .varint), sampleXid) ∧
    (svcM .varint).Create sampleXid ⟨some tot⟩ =
      (.returned createOk none (svcMT .varint), sampleXid) ∧
    (svcMT .varint).SearchAge ⟨some ⟨0, 10⟩⟩ =
      .returned (okResp [minusOne, tot]) none (svcMT .varint) ∧
    (svcMT .varint).SearchAge ⟨some ⟨-5, 10⟩⟩ = .returned (okResp []) none (svcMT .varint) ∧
    (svcMT .bigEndian).SearchAge ⟨some ⟨0, 10⟩⟩ =
      .returned (okResp [tot]) none (svcMT .bigEndian) ∧
    (svcMT .bigEndian).SearchAge ⟨some ⟨-5, 10⟩⟩ =
      .returned (okResp [minusOne, tot]) none (svcMT .bigEndian) :=
  ⟨rfl, rfl, rfl, rfl, rfl, rfl, rfl, rfl⟩

/-- C10, amended: for every reachable store, on either release of the library,
and every valid range (`From ≤ ToIncluded`), `SearchAge` returns `SUCCESS` with
a nil error and the store unchanged; the list is the walk of the index `"age"`
from the first user whose age key is not below the key of `From` up to the
first user of age above 35; every returned user is stored and not older than
35, none occurs twice, and the outcome is the same for every other upper bound
`ToIncluded` at or above `From`. When `From` and the ages of the stored users
are non-negative 32-bit integers, the list holds exactly the stored users with
`From ≤ Age ≤ 35`, in ascending order of age. -/
theorem C10_SearchAge_up_to_35 (svc : UserImpl) (h : Reachable svc) (r : AgeRange)
    (hr : r.From ≤ r.ToIncluded) :
    ∃ resp : SearchResp, svc.SearchAge ⟨some r⟩ = .returned resp none svc ∧
      resp.Status.Code = .SUCCESS ∧
      resp.Users = ((svc.DB.age.map Prod.snd).dropWhile
        (fun u => decide (encodeInt svc.DB.ints u.Age < encodeInt svc.DB.ints r.From))).takeWhile
        (fun u => decide (u.Age ≤ 35)) ∧
      (∀ u ∈ resp.Users, u ∈ stored svc ∧ ¬ u.Age > 35) ∧
      resp.Users.Nodup ∧
      (∀ to2 : Int, r.From ≤ to2 →
        svc.SearchAge ⟨some ⟨r.From, to2⟩⟩ = svc.SearchAge ⟨some r⟩) ∧
      (NonNegInt32 r.From → (∀ u ∈ stored svc, NonNegInt32 u.Age) →
        (∀ u, u ∈ resp.Users ↔ u ∈ stored svc ∧ r.From ≤ u.Age ∧ u.Age ≤ 35) ∧
        resp.Users.Pairwise (fun a b => a.Age ≤ b.Age)) := by
  have hwf := h.wf
  have hcall : ∀ to2 : Int, r.From ≤ to2 →
      svc.SearchAge ⟨some ⟨r.From, to2⟩⟩ =
        .returned (okResp (appendUpTo35 ((svc.DB.Txn false).LowerBound r.From) [])) none svc := by
    intro to2 h2
    have : ¬ r.From > to2 := not_lt.2 h2
    simp [UserImpl.SearchAge, this, okResp, Txn.Abort]
  have hwalk := searchAge_walk svc.DB hwf r.From
  refine ⟨okResp (appendUpTo35 ((svc.DB.Txn false).LowerBound r.From) []), ?_, rfl, hwalk,
    ?_, ?_, ?_, ?_⟩
  · exact hcall r.ToIncluded hr
  · intro u hu
    have hu1 : u ∈ appendUpTo35 ((svc.DB.Txn false).LowerBound r.From) [] := hu
    rw [hwalk] at hu1
    have h35 : u.Age ≤ 35 := of_decide_eq_true (mem_takeWhile_true _ _ _ hu1)
    have hmem : u ∈ svc.DB.age.map Prod.snd :=
      (List.dropWhile_sublist _).subset ((List.takeWhile_sublist _).subset hu1)
    exact ⟨(hwf.same u).2 hmem, not_lt.2 h35⟩
  · show (appendUpTo35 ((svc.DB.Txn false).LowerBound r.From) []).Nodup
    rw [hwalk]
    exact ((age_users_nodup svc.DB hwf).sublist (List.dropWhile_sublist _)).sublist
      (List.takeWhile_sublist _)
  · intro to2 h2
    rw [hcall to2 h2, hcall r.ToIncluded hr]
  · intro hfrom hages
    have hages1 : ∀ u ∈ svc.DB.age.map Prod.snd, NonNegInt32 u.Age :=
      fun u hu => hages u ((hwf.same u).2 hu)
    have hfilter := searchAge_users svc.DB hwf r.From hfrom hages1
    constructor
    · intro u
      show u ∈ appendUpTo35 ((svc.DB.Txn false).LowerBound r.From) [] ↔ _
      rw [hfilter, List.mem_filter, ← hwf.same u]
      simp only [stored, Bool.and_eq_true, decide_eq_true_eq]
    · show (appendUpTo35 ((svc.DB.Txn false).LowerBound r.From) []).Pairwise _
      rw [hfilter]
      refine List.Pairwise.imp_of_mem ?_ ((age_users_ascending svc.DB hwf hages1).filter _)
      intro a b _ hb hab
      have hb1 := (List.mem_filter.1 hb).2
      simp only [Bool.and_eq_true, decide_eq_true_eq] at hb1
      exact hab hb1.2

/-- C10, witness: `SearchAge(10, 20)` and `SearchAge(10, 50)` on the store
holding Anna (30) and Bob (40) both return Anna alone, on either release of the
library. -/
theorem C10_SearchAge_up_to_35_witness :
    Reachable (svcAB .varint) ∧ (10 : Int) ≤ 20 ∧ NonNegInt32 10 ∧
    (∀ u ∈ stored (svcAB .varint), NonNegInt32 u.Age) ∧
    (∀ enc : IntEncoding,
      (svcAB enc).SearchAge ⟨some ⟨10, 20⟩⟩ = .returned (okResp [anna]) none (svcAB enc) ∧
      (svcAB enc).SearchAge ⟨some ⟨10, 50⟩⟩ = .returned (okResp [anna]) none (svcAB enc)) ∧
    ∃ resp : SearchResp,
      (svcAB .varint).SearchAge ⟨some ⟨10, 20⟩⟩ = .returned resp none (svcAB .varint) ∧
      (∀ u, u ∈ resp.Users ↔ u ∈ stored (svcAB .varint) ∧ (10 : Int) ≤ u.Age ∧ u.Age ≤ 35) ∧
      resp.Users.Pairwise (fun a b => a.Age ≤ b.Age) := by
  have h10 : NonNegInt32 10 := by unfold NonNegInt32; decide
  have hages : ∀ u ∈ stored (svcAB .varint), NonNegInt32 u.Age := by
    intro u hu
    have : u = anna ∨ u = bob := by simpa [stored, svcAB] using hu
    rcases this with rfl | rfl <;> (unfold NonNegInt32; decide)
  refine ⟨svcAB_reachable .varint, by decide, h10, hages,
    fun enc => by cases enc <;> exact ⟨rfl, rfl⟩, ?_⟩
  obtain ⟨resp, h1, _, _, _, _, _, h7⟩ :=
    C10_SearchAge_up_to_35 (svcAB .varint) (svcAB_reachable .varint) ⟨10, 20⟩ (by decide)
  exact ⟨resp, h1, (h7 h10 hages).1, (h7 h10 hages).2⟩

/-! ## Further properties of the code -/

/-- On users that all have a name, the filter of `SearchName` keeps those whose
first name contains the query. -/
theorem NewFilterIterator_named (q : String) (it : ResultIterator)
    (hn : ∀ u ∈ it, u.Name ≠ none) :
    NewFilterIterator it (filterByFirstOrLastName q) = .ok (it.filter (firstNameContains q)) := by
  induction it with
  | nil => rfl
  | cons u it ih =>
    have hu := hn u (List.mem_cons_self _ _)
    have hit := ih (fun v hv => hn v (List.mem_cons_of_mem _ hv))
    cases hname : u.Name with
    | none => exact absurd hname hu
    | some n =>
      unfold NewFilterIterator
      rw [hit]
      cases hc : strings.Contains n.First q <;>
        simp [filterByFirstOrLastName, hname, hc, List.filter, firstNameContains]

/-- On users one of which has no name, the filter of `SearchName` panics. -/
theorem NewFilterIterator_unnamed (q : String) (it : ResultIterator)
    (hn : ∃ u ∈ it, u.Name = none) :
    NewFilterIterator it (filterByFirstOrLastName q) =
      .error "runtime error: invalid memory address or nil pointer dereference" := by
  induction it with
  | nil => obtain ⟨u, hu, _⟩ := hn; simp at hu
  | cons u it ih =>
    unfold NewFilterIterator
    cases hname : u.Name with
    | none => simp [filterByFirstOrLastName, hname]
    | some n =>
      have hrest : ∃ v ∈ it, v.Name = none := by
        obtain ⟨v, hv, hvn⟩ := hn
        rcases List.mem_cons.1 hv with h | h
        · rw [h, hname] at hvn; exact Option.noConfusion hvn
        · exact ⟨v, h, hvn⟩
      simp [filterByFirstOrLastName, hname, ih hrest]

/-- What `SearchName` does: for a non-empty query on a store whose users all
have a name, it returns `SUCCESS` and the stored users whose first name
contains the query, in the order of the primary index; the last name plays no
part. -/
theorem SearchName_first_name_only (svc : UserImpl) (q : String) (hq : q ≠ "")
    (hn : ∀ u ∈ stored svc, u.Name ≠ none) :
    svc.SearchName ⟨q⟩ =
      .returned (okResp ((stored svc).filter (firstNameContains q))) none svc := by
  have := NewFilterIterator_named q (stored svc) hn
  unfold stored at this
  simp [UserImpl.SearchName, hq, Txn.Get, MemDB.Txn, this, appendAll_eq, okResp, Txn.Abort, stored]

/-- Witness of `SearchName_first_name_only`: the query `"nn"` on the store
holding Anna and Bob. -/
theorem SearchName_first_name_only_witness :
    ("nn" : String) ≠ "" ∧ (∀ u ∈ stored (svcAB .varint), u.Name ≠ none) ∧
    (svcAB .varint).SearchName ⟨"nn"⟩ =
      .returned (okResp ((stored (svcAB .varint)).filter (firstNameContains "nn"))) none
        (svcAB .varint) ∧
    (stored (svcAB .varint)).filter (firstNameContains "nn") = [anna] :=
  have hn : ∀ u ∈ stored (svcAB .varint), u.Name ≠ none := by decide
  ⟨by decide, hn, SearchName_first_name_only (svcAB .varint) "nn" (by decide) hn, rfl⟩

/-- A stored user without a name makes every `SearchName` with a non-empty
query panic, at `u.Name.First`. -/
theorem SearchName_panics_on_nil_Name (svc : UserImpl) (q : String) (hq : q ≠ "")
    (hn : ∃ u ∈ stored svc, u.Name = none) :
    svc.SearchName ⟨q⟩ =
      .panicked "runtime error: invalid memory address or nil pointer dereference" := by
  have := NewFilterIterator_unnamed q (stored svc) hn
  unfold stored at this
  simp [UserImpl.SearchName, hq, Txn.Get, MemDB.Txn, this]

/-- Witness of `SearchName_panics_on_nil_Name`: a user without a name is
created on the empty store, then `SearchName("a")` is called. -/
theorem SearchName_panics_on_nil_Name_witness :
    (NewUserImpl .varint).Create sampleXid ⟨some nameless⟩ =
      (.returned createOk none (svcN .varint), sampleXid) ∧
    ("a" : String) ≠ "" ∧ (∃ u ∈ stored (svcN .varint), u.Name = none) ∧
    (svcN .varint).SearchName ⟨"a"⟩ =
      .panicked "runtime error: invalid memory address or nil pointer dereference" :=
  have hn : ∃ u ∈ stored (svcN .varint), u.Name = none := ⟨nameless, by decide, rfl⟩
  ⟨rfl, by decide, hn, SearchName_panics_on_nil_Name (svcN .varint) "a" (by decide) hn⟩

/-- A create request that carries no user makes `Create` panic at `user.Id`,
whatever the store holds; the supplier is not called. -/
theorem Create_panics_without_user (svc : UserImpl) (xid : Xid) :
    svc.Create xid ⟨none⟩ =
      (.panicked "runtime error: invalid memory address or nil pointer dereference", xid) :=
  rfl

/-- In every reachable state both indexes are in strictly ascending key order,
every entry is filed under the key of its user, and the two indexes hold the
same users: no user is filed twice or under a stale age. -/
theorem reachable_indexes_consistent (svc : UserImpl) (h : Reachable svc) : svc.DB.WF :=
  h.wf

/-- Witness of `reachable_indexes_consistent`: the store holding Anna and
Bob. -/
theorem reachable_indexes_consistent_witness :
    Reachable (svcAB .varint) ∧ (svcAB .varint).DB.WF :=
  ⟨svcAB_reachable .varint, reachable_indexes_consistent (svcAB .varint) (svcAB_reachable .varint)⟩

/-- What `Create` stores: on a reachable store, for a user with a non-empty
email, `Create` returns `SUCCESS`, and afterwards the store holds the inserted
user (with the generated id when it had none) and the users stored before
whose email is another one. -/
theorem Create_replaces_by_Email (svc : UserImpl) (h : Reachable svc) (xid : Xid) (u : User)
    (hu : u.Email ≠ "") :
    ∃ svc1 : UserImpl,
      svc.Create xid ⟨some u⟩ = (.returned createOk none svc1, (assignId xid u).2) ∧
      Reachable svc1 ∧
      ∀ v, v ∈ stored svc1 ↔ v = (assignId xid u).1 ∨ (v ∈ stored svc ∧ v.Email ≠ u.Email) := by
  obtain ⟨svc1, hc, _, hmem⟩ := Create_some svc xid u h.wf hu
  exact ⟨svc1, hc, Reachable.create h hc, hmem⟩

/-- Witness of `Create_replaces_by_Email`: a user with Bob's email is created
on the store holding Anna and Bob. -/
theorem Create_replaces_by_Email_witness :
    Reachable (svcAB .varint) ∧ bobAsU1.Email ≠ "" ∧
    (svcAB .varint).Create sampleXid ⟨some bobAsU1⟩ =
      (.returned createOk none (svcAU .varint), sampleXid) ∧
    ∃ svc1 : UserImpl,
      (svcAB .varint).Create sampleXid ⟨some bobAsU1⟩ =
        (.returned createOk none svc1, (assignId sampleXid bobAsU1).2) ∧
      Reachable svc1 ∧
      ∀ v, v ∈ stored svc1 ↔
        v = (assignId sampleXid bobAsU1).1 ∨
          (v ∈ stored (svcAB .varint) ∧ v.Email ≠ bobAsU1.Email) :=
  ⟨svcAB_reachable .varint, by decide, rfl,
    Create_replaces_by_Email (svcAB .varint) (svcAB_reachable .varint) sampleXid bobAsU1
      (by decide)⟩

end Quote
